import Mathlib

/-!
# FMeshDescriptionBuilder over an indexed polygon mesh

A shallow embedding of `MeshDescriptionBuilder.cpp`.  The builder is a thin client of
the host mesh container (`FMeshDescription`, its element arrays and attribute tables,
and `FAxisAlignedBox3f`), none of which is part of the translated source file; those
parts are modelled from the specification (sections 3, 4.1 and 7) and marked so.

Conventions of the embedding

* Scalars are an arbitrary type `R`; theorems ask for the order or addition they need.
* Identifiers are natural numbers, indices into sparse element arrays.
* A host operation returns `Except MeshError _` and leaves the mesh untouched when it
  fails.  A builder operation returns its result together with the mesh as it stands
  when the call ends: the builder never inspects a host result, so a host failure ends
  the builder call with that failure and the mutations made so far remain.
* Scratch members of the builder (`TempBuffer`, `UVBuffer`, `NormalBuffer`) carry no
  mesh state and appear as local values.
-/

namespace MeshBuilder

/-! ## Values -/

/-- Modelled from the spec: the error kinds of the mesh container (section 7). -/
inductive MeshError
  | InvalidReference
  | DegeneratePolygon
  | IndexOutOfRange
  | AttributeConflict
  | ReferencedElement
  deriving DecidableEq, Repr

/-- Modelled from the spec: a 2-D texture coordinate (the host's `FVector2D`) over the
scalar type `R`. -/
structure FVector2D (R : Type) where
  X : R
  Y : R
  deriving DecidableEq, Repr

/-- Modelled from the spec: a point or direction in 3-D space (the host's `FVector`)
over the scalar type `R`. -/
structure FVector (R : Type) where
  X : R
  Y : R
  Z : R
  deriving DecidableEq, Repr

/-- Modelled from the spec: a colour (the host's `FVector4`) over the scalar type `R`. -/
structure FVector4 (R : Type) where
  X : R
  Y : R
  Z : R
  W : R
  deriving DecidableEq, Repr

/-- Modelled from the spec: vector addition (section 4.1, `Translate`), the `+=` of the
host's `FVector`. -/
def FVector.add {R : Type} [Add R] (a b : FVector R) : FVector R :=
  ⟨a.X + b.X, a.Y + b.Y, a.Z + b.Z⟩

instance {R : Type} [Add R] : Add (FVector R) := ⟨FVector.add⟩

/-! ## Sparse element arrays -/

/-- Modelled from the spec: the storage of one identifier domain (section 3, "opaque,
densely-reused integer handles").  Slot `i` holds the element with identifier `i`, or
`none` when that identifier is not live. -/
abbrev TMeshElementArray (α : Type) := List (Option α)

/-- Modelled from the spec: the element a handle refers to, `none` for a dead or
never-allocated handle. -/
def ElementAt {α : Type} : TMeshElementArray α → Nat → Option α
  | [], _ => none
  | x :: _, 0 => x
  | _ :: xs, n + 1 => ElementAt xs n

/-- Modelled from the spec: liveness of a handle (the host's `IsValid`). -/
def IsValid {α : Type} (arr : TMeshElementArray α) (id : Nat) : Bool :=
  (ElementAt arr id).isSome

/-- Modelled from the spec: the handle the next creation will issue: the lowest free
slot, or a new slot at the end (section 9, dense identifier reuse). -/
def NextFree {α : Type} : TMeshElementArray α → Nat
  | [] => 0
  | none :: _ => 0
  | some _ :: xs => NextFree xs + 1

/-- Modelled from the spec: store a new element in the slot `NextFree` designates. -/
def Insert {α : Type} : TMeshElementArray α → α → TMeshElementArray α
  | [], a => [some a]
  | none :: xs, a => some a :: xs
  | some b :: xs, a => some b :: Insert xs a

/-- Modelled from the spec: overwrite the element of a slot (no effect past the end). -/
def Replace {α : Type} : TMeshElementArray α → Nat → α → TMeshElementArray α
  | [], _, _ => []
  | _ :: xs, 0, a => some a :: xs
  | x :: xs, n + 1, a => x :: Replace xs n a

/-- Modelled from the spec: the live handles of a domain in increasing order (the
host's `GetElementIDs`). -/
def GetElementIDs {α : Type} : TMeshElementArray α → List Nat
  | [] => []
  | none :: xs => (GetElementIDs xs).map (· + 1)
  | some _ :: xs => 0 :: (GetElementIDs xs).map (· + 1)

/-! ## Attribute tables -/

/-- Modelled from the spec: an attribute table (section 3, `AttributeTable`): a mapping
from (identifier, layer index) to a value, with a declared default.  The declared arity
and the liveness of identifiers are supplied by the owning mesh. -/
structure TAttributesRef (T : Type) where
  Default : T
  Data : Nat → Int → T

/-- Modelled from the spec: `Get(attributeTable, id, layerIndex)`, "bounds-checked by
identifier liveness" and "by `layerIndex < declared arity`, failing with
`IndexOutOfRange` otherwise" (section 4.1). -/
def TAttributesRef.Get {T : Type} (t : TAttributesRef T) (live : Bool) (arity : Nat)
    (id : Nat) (layer : Int) : Except MeshError T :=
  if live = false then .error .InvalidReference
  else if layer < (arity : Int) then .ok (t.Data id layer)
  else .error .IndexOutOfRange

/-- Modelled from the spec: the table with entry `(id, layerIndex)` replaced by a value
and every other entry kept. -/
def TAttributesRef.Write {T : Type} (t : TAttributesRef T) (id : Nat) (layer : Int) (v : T) :
    TAttributesRef T :=
  { t with Data := Function.update t.Data id (Function.update (t.Data id) layer v) }

/-- Modelled from the spec: `Set(attributeTable, id, layerIndex, value)`, with the same
two checks as `Get` (section 4.1); the entry written is exactly `(id, layerIndex)`. -/
def TAttributesRef.Set {T : Type} (t : TAttributesRef T) (live : Bool) (arity : Nat)
    (id : Nat) (layer : Int) (v : T) : Except MeshError (TAttributesRef T) :=
  if live = false then .error .InvalidReference
  else if layer < (arity : Int) then .ok (t.Write id layer v)
  else .error .IndexOutOfRange

/-- Modelled from the spec: a freshly created element holds the table's default in
every layer ("attribute tables never contain entries for deleted identifiers"). -/
def TAttributesRef.Reset {T : Type} (t : TAttributesRef T) (id : Nat) : TAttributesRef T :=
  { t with Data := Function.update t.Data id (fun _ => t.Default) }

/-! ## The mesh container -/

/-- Modelled from the spec: an edge, an unordered pair of vertices with the polygons
adjacent to it (section 3). -/
structure FMeshEdge where
  Vertex0 : Nat
  Vertex1 : Nat
  ConnectedPolygons : List Nat
  deriving DecidableEq, Repr

/-- Modelled from the spec: a polygon, an ordered cycle of vertex instances in one
polygon group (section 3). -/
structure FMeshPolygon where
  PolygonGroup : Nat
  VertexInstances : List Nat
  deriving DecidableEq, Repr

/-- Modelled from the spec: the mesh container `IndexedPolyMesh` (the host's
`FMeshDescription`): five identifier domains and the attribute tables attached to
them.  A vertex instance stores the vertex it references.  The position and hardness
tables always exist with arity 1; the per-instance tables and the polygon tag table
exist only when registered (`none` is the host's invalid attribute reference); the
texture-coordinate table has `NumUVLayers` layers. -/
structure FMeshDescription (R : Type) where
  VertexArray : TMeshElementArray Unit
  VertexInstanceArray : TMeshElementArray Nat
  EdgeArray : TMeshElementArray FMeshEdge
  PolygonArray : TMeshElementArray FMeshPolygon
  PolygonGroupArray : TMeshElementArray Unit
  NumUVLayers : Nat
  Position : TAttributesRef (FVector R)
  TextureCoordinate : Option (TAttributesRef (FVector2D R))
  Normal : Option (TAttributesRef (FVector R))
  Color : Option (TAttributesRef (FVector4 R))
  IsHard : TAttributesRef Bool
  PolyTriGroups : Option (TAttributesRef Int)

variable {R : Type}

/-- Modelled from the spec: `CreateVertex`, allocating a vertex whose position is the
table's default (the builder installs the position itself). -/
def FMeshDescription.CreateVertex (m : FMeshDescription R) : Nat × FMeshDescription R :=
  let id := NextFree m.VertexArray
  (id, { m with VertexArray := Insert m.VertexArray (), Position := m.Position.Reset id })

/-- Modelled from the spec: `CreateVertexInstance(vertexID)`, which "fails with
`InvalidReference` if vertexID is dead". -/
def FMeshDescription.CreateVertexInstance (m : FMeshDescription R) (VertexID : Nat) :
    Except MeshError (Nat × FMeshDescription R) :=
  if IsValid m.VertexArray VertexID = false then .error .InvalidReference
  else
    let id := NextFree m.VertexInstanceArray
    .ok (id, { m with
      VertexInstanceArray := Insert m.VertexInstanceArray VertexID
      TextureCoordinate := m.TextureCoordinate.map (·.Reset id)
      Normal := m.Normal.map (·.Reset id)
      Color := m.Color.map (·.Reset id) })

/-- Modelled from the spec: `CreatePolygonGroup`. -/
def FMeshDescription.CreatePolygonGroup (m : FMeshDescription R) :
    Nat × FMeshDescription R :=
  (NextFree m.PolygonGroupArray,
    { m with PolygonGroupArray := Insert m.PolygonGroupArray () })

/-- Modelled from the spec: the vertex referenced by a vertex instance. -/
def FMeshDescription.GetVertexInstanceVertex (m : FMeshDescription R) (InstanceID : Nat) :
    Option Nat :=
  ElementAt m.VertexInstanceArray InstanceID

/-- Whether a list of vertices names some vertex twice. -/
def HasRepeatedVertex : List Nat → Bool
  | [] => false
  | v :: vs => vs.contains v || HasRepeatedVertex vs

/-- Modelled from the spec: the boundary of a cycle, "consecutive instance pairs,
wrapping". -/
def BoundaryPairs (vs : List Nat) : List (Nat × Nat) :=
  vs.zip (vs.tail ++ vs.take 1)

/-- Modelled from the spec: a live edge that "connects the same two vertices
(order-independent equality)", searched from slot `base` on. -/
def FindEdge : TMeshElementArray FMeshEdge → Nat → Nat → Nat → Option Nat
  | [], _, _, _ => none
  | none :: es, a, b, base => FindEdge es a b (base + 1)
  | some e :: es, a, b, base =>
    if (e.Vertex0 = a ∧ e.Vertex1 = b) ∨ (e.Vertex0 = b ∧ e.Vertex1 = a) then some base
    else FindEdge es a b (base + 1)

/-- Modelled from the spec: one boundary edge of a new polygon, "creating new Edge
entries or reusing existing ones" and appending "the polygon to each edge's
polygon-adjacency list". -/
def FMeshDescription.AttachEdge (m : FMeshDescription R) (PolygonID : Nat) (ab : Nat × Nat) :
    FMeshDescription R :=
  match FindEdge m.EdgeArray ab.1 ab.2 0 with
  | some e =>
    match ElementAt m.EdgeArray e with
    | some edge =>
      let edge1 : FMeshEdge := ⟨edge.Vertex0, edge.Vertex1, edge.ConnectedPolygons ++ [PolygonID]⟩
      { m with EdgeArray := Replace m.EdgeArray e edge1 }
    | none => m
  | none =>
    let e := NextFree m.EdgeArray
    { m with
      EdgeArray := Insert m.EdgeArray ⟨ab.1, ab.2, [PolygonID]⟩
      IsHard := m.IsHard.Reset e }

/-- Modelled from the spec: `CreatePolygon(groupID, orderedInstanceList)`, which
"validates: group is live, instance list has ≥3 entries, no duplicate vertex within
the cycle (by underlying vertex, not instance), all instances live", in that order,
failing "with `DegeneratePolygon` on vertex-count < 3 or repeated vertex" and "with
`InvalidReference` on any dead instance/group"; on success it stores the polygon and
derives its boundary edges. -/
def FMeshDescription.CreatePolygon (m : FMeshDescription R) (PolygonGroupID : Nat)
    (Instances : List Nat) : Except MeshError (Nat × FMeshDescription R) :=
  if IsValid m.PolygonGroupArray PolygonGroupID = false then .error .InvalidReference
  else if Instances.length < 3 then .error .DegeneratePolygon
  else if HasRepeatedVertex (Instances.filterMap m.GetVertexInstanceVertex) then
    .error .DegeneratePolygon
  else if Instances.all (IsValid m.VertexInstanceArray) = false then
    .error .InvalidReference
  else
    let id := NextFree m.PolygonArray
    let m1 : FMeshDescription R := { m with
      PolygonArray := Insert m.PolygonArray ⟨PolygonGroupID, Instances⟩
      PolyTriGroups := m.PolyTriGroups.map (·.Reset id) }
    .ok (id, (BoundaryPairs (Instances.filterMap m.GetVertexInstanceVertex)).foldl
      (fun acc ab => acc.AttachEdge id ab) m1)

/-! ## Attribute references held by the builder

`SetMeshDescription` binds `VertexPositions`, `InstanceUVs`, `InstanceNormals` and
`InstanceColors` to the tables of the mesh; `SetAllEdgesHardness` looks up the hardness
table.  Each reference reads and writes the table inside the mesh. -/

/-- Modelled from the spec: the call `VertexPositions.Get(id, index)`, a `Get` on the
position table (arity 1). -/
def VertexPositions_Get (m : FMeshDescription R) (VertexID : Nat) (Index : Int) :
    Except MeshError (FVector R) :=
  m.Position.Get (IsValid m.VertexArray VertexID) 1 VertexID Index

/-- Modelled from the spec: the call `VertexPositions.Set(id, index, value)`, a `Set` on
the position table (arity 1). -/
def VertexPositions_Set (m : FMeshDescription R) (VertexID : Nat) (Index : Int)
    (Value : FVector R) : Except MeshError (FMeshDescription R) :=
  match m.Position.Set (IsValid m.VertexArray VertexID) 1 VertexID Index Value with
  | .ok t => .ok { m with Position := t }
  | .error e => .error e

/-- Modelled from the spec: the call `InstanceUVs.IsValid()`, whether the
texture-coordinate table is registered. -/
def InstanceUVs_IsValid (m : FMeshDescription R) : Bool := m.TextureCoordinate.isSome

/-- Modelled from the spec: the call `InstanceUVs.GetNumIndices()`, the declared number
of UV layers. -/
def InstanceUVs_GetNumIndices (m : FMeshDescription R) : Int := (m.NumUVLayers : Int)

/-- Modelled from the spec: the call `InstanceUVs.Set(id, index, value)`, a `Set` on the
texture-coordinate table; an invalid reference names no table. -/
def InstanceUVs_Set (m : FMeshDescription R) (InstanceID : Nat) (Index : Int)
    (Value : FVector2D R) : Except MeshError (FMeshDescription R) :=
  match m.TextureCoordinate with
  | none => .error .InvalidReference
  | some t =>
    match t.Set (IsValid m.VertexInstanceArray InstanceID) m.NumUVLayers InstanceID Index Value with
    | .ok t1 => .ok { m with TextureCoordinate := some t1 }
    | .error e => .error e

/-- Modelled from the spec: the call `InstanceNormals.Set(id, index, value)`, a `Set` on
the normal table (arity 1); an invalid reference names no table. -/
def InstanceNormals_Set (m : FMeshDescription R) (InstanceID : Nat) (Index : Int)
    (Value : FVector R) : Except MeshError (FMeshDescription R) :=
  match m.Normal with
  | none => .error .InvalidReference
  | some t =>
    match t.Set (IsValid m.VertexInstanceArray InstanceID) 1 InstanceID Index Value with
    | .ok t1 => .ok { m with Normal := some t1 }
    | .error e => .error e

/-- Modelled from the spec: the call `EdgeHardness.Set(id, index, value)`, a `Set` on the
hardness table (arity 1). -/
def EdgeHardness_Set (m : FMeshDescription R) (EdgeID : Nat) (Index : Int) (Value : Bool) :
    Except MeshError (FMeshDescription R) :=
  match m.IsHard.Set (IsValid m.EdgeArray EdgeID) 1 EdgeID Index Value with
  | .ok t => .ok { m with IsHard := t }
  | .error e => .error e

/-- Modelled from the spec: the call `EdgeHardness.Get(id, index)`, a `Get` on the
hardness table (arity 1). -/
def EdgeHardness_Get (m : FMeshDescription R) (EdgeID : Nat) (Index : Int) :
    Except MeshError Bool :=
  m.IsHard.Get (IsValid m.EdgeArray EdgeID) 1 EdgeID Index

/-! ## The bounding box -/

/-- Modelled from the spec: an axis-aligned box, with the canonical empty box of the
spec, section 4.1 ("any contain-test against it immediately adopts the tested point's
bounds"), as a value of its own. -/
inductive FAxisAlignedBox3 (R : Type) where
  | Empty : FAxisAlignedBox3 R
  | Box (Min Max : FVector R) : FAxisAlignedBox3 R
  deriving DecidableEq, Repr

/-- Modelled from the spec: `Contain`, growing a box to hold a point: the empty box
adopts the point, any other box takes the component-wise minimum and maximum. -/
def FAxisAlignedBox3.Contain [LinearOrder R] : FAxisAlignedBox3 R → FVector R → FAxisAlignedBox3 R
  | .Empty, p => .Box p p
  | .Box mn mx, p =>
    .Box ⟨min mn.X p.X, min mn.Y p.Y, min mn.Z p.Z⟩ ⟨max mx.X p.X, max mx.Y p.Y, max mx.Z p.Z⟩

/-! ## The builder (`MeshDescriptionBuilder.cpp`) -/

/-- Result of a builder call: the value returned or the host failure that ended the
call, and the mesh as the call left it. -/
abbrev Outcome (R α : Type) := Except MeshError α × FMeshDescription R

/-- Source lines 49-54, `FMeshDescriptionBuilder::AppendVertex`. -/
def AppendVertex (m : FMeshDescription R) (Position : FVector R) : Outcome R Nat :=
  let (VertexID, m1) := m.CreateVertex
  match VertexPositions_Set m1 VertexID 0 Position with
  | .ok m2 => (.ok VertexID, m2)
  | .error e => (.error e, m1)

/-- Source lines 57-60, `FMeshDescriptionBuilder::AppendPolygonGroup`. -/
def AppendPolygonGroup (m : FMeshDescription R) : Outcome R Nat :=
  let (id, m1) := m.CreatePolygonGroup
  (.ok id, m1)

/-- Source lines 74-77, `FMeshDescriptionBuilder::AppendInstance`. -/
def AppendInstance (m : FMeshDescription R) (VertexID : Nat) : Outcome R Nat :=
  match m.CreateVertexInstance VertexID with
  | .ok (id, m1) => (.ok id, m1)
  | .error e => (.error e, m)

/-- Source lines 81-84, `FMeshDescriptionBuilder::SetPosition`. -/
def SetPosition (m : FMeshDescription R) (VertexID : Nat) (NewPosition : FVector R) :
    Outcome R Unit :=
  match VertexPositions_Set m VertexID 0 NewPosition with
  | .ok m1 => (.ok (), m1)
  | .error e => (.error e, m)

/-- Source lines 86-89, `FMeshDescriptionBuilder::GetPosition` (vertex overload). -/
def GetPosition (m : FMeshDescription R) (VertexID : Nat) : Except MeshError (FVector R) :=
  VertexPositions_Get m VertexID 0

/-- Source lines 119-125, `FMeshDescriptionBuilder::SetInstanceUV`.  The guard is
`InstanceUVs.IsValid() && ensure(UVLayerIndex < InstanceUVs.GetNumIndices())`; a failed
`ensure` is the call's `IndexOutOfRange` report, an invalid reference skips the write
silently. -/
def SetInstanceUV (m : FMeshDescription R) (InstanceID : Nat) (InstanceUV : FVector2D R)
    (UVLayerIndex : Int) : Outcome R Unit :=
  if InstanceUVs_IsValid m then
    if UVLayerIndex < InstanceUVs_GetNumIndices m then
      match InstanceUVs_Set m InstanceID UVLayerIndex InstanceUV with
      | .ok m1 => (.ok (), m1)
      | .error e => (.error e, m)
    else (.error .IndexOutOfRange, m)
  else (.ok (), m)

/-- Element `j` of a host array (`TArray::operator[]`, range-checked by the host):
reading past the end ends the call with `IndexOutOfRange`. -/
def ArrayAt {α : Type} (a : List α) (j : Nat) : Except MeshError α :=
  match a[j]? with
  | some x => .ok x
  | none => .error .IndexOutOfRange

/-- In the loop body of `AppendPolygon`:
`if (VertexUVs != nullptr) InstanceUVs.Set(VertexInstance, (*VertexUVs)[j]);` -/
def AppendPolygonCornerUV (VertexUVs : Option (List (FVector2D R))) (m : FMeshDescription R)
    (VertexInstance : Nat) (j : Nat) : Outcome R Unit :=
  match VertexUVs with
  | none => (.ok (), m)
  | some uvs =>
    match ArrayAt uvs j with
    | .error e => (.error e, m)
    | .ok uv =>
      match InstanceUVs_Set m VertexInstance 0 uv with
      | .ok m1 => (.ok (), m1)
      | .error e => (.error e, m)

/-- In the loop body of `AppendPolygon`:
`if (VertexNormals != nullptr) InstanceNormals.Set(VertexInstance, (*VertexNormals)[j]);` -/
def AppendPolygonCornerNormal (VertexNormals : Option (List (FVector R)))
    (m : FMeshDescription R) (VertexInstance : Nat) (j : Nat) : Outcome R Unit :=
  match VertexNormals with
  | none => (.ok (), m)
  | some normals =>
    match ArrayAt normals j with
    | .error e => (.error e, m)
    | .ok n =>
      match InstanceNormals_Set m VertexInstance 0 n with
      | .ok m1 => (.ok (), m1)
      | .error e => (.error e, m)

/-- The body of the `for` loop of `AppendPolygon` for corner `j`: create the new
vertex instance (added to `Polygon` by the loop), then write its UV and its normal
when the arrays are supplied. -/
def AppendPolygonCorner (VertexUVs : Option (List (FVector2D R)))
    (VertexNormals : Option (List (FVector R))) (m : FMeshDescription R) (VertexID : Nat)
    (j : Nat) : Outcome R Nat :=
  match m.CreateVertexInstance VertexID with
  | .error e => (.error e, m)
  | .ok (VertexInstance, m1) =>
    match AppendPolygonCornerUV VertexUVs m1 VertexInstance j with
    | (.error e, m2) => (.error e, m2)
    | (.ok (), m2) =>
      match AppendPolygonCornerNormal VertexNormals m2 VertexInstance j with
      | (.error e, m3) => (.error e, m3)
      | (.ok (), m3) => (.ok VertexInstance, m3)

/-- The `for` loop of `AppendPolygon` over the vertices still to visit, `j` being the
index of the first of them and `Polygon` the instances collected so far. -/
def AppendPolygonLoop (VertexUVs : Option (List (FVector2D R)))
    (VertexNormals : Option (List (FVector R))) :
    FMeshDescription R → List Nat → Nat → List Nat → Outcome R (List Nat)
  | m, [], _, Polygon => (.ok Polygon, m)
  | m, v :: vs, j, Polygon =>
    match AppendPolygonCorner VertexUVs VertexNormals m v j with
    | (.error e, m1) => (.error e, m1)
    | (.ok VertexInstance, m1) =>
      AppendPolygonLoop VertexUVs VertexNormals m1 vs (j + 1) (Polygon ++ [VertexInstance])

/-- Source lines 178-203, `FMeshDescriptionBuilder::AppendPolygon`. -/
def AppendPolygon (m : FMeshDescription R) (Vertices : List Nat) (PolygonGroup : Nat)
    (VertexUVs : Option (List (FVector2D R))) (VertexNormals : Option (List (FVector R))) :
    Outcome R Nat :=
  match AppendPolygonLoop VertexUVs VertexNormals m Vertices 0 [] with
  | (.error e, m1) => (.error e, m1)
  | (.ok Polygon, m1) =>
    match m1.CreatePolygon PolygonGroup Polygon with
    | .ok (NewPolygonID, m2) => (.ok NewPolygonID, m2)
    | .error e => (.error e, m1)

/-- Source lines 64-71, `FMeshDescriptionBuilder::AppendTriangle` (three vertex
identifiers). -/
def AppendTriangle (m : FMeshDescription R) (Vertex0 Vertex1 Vertex2 : Nat)
    (PolygonGroup : Nat) : Outcome R Nat :=
  let TempBuffer := [Vertex0, Vertex1, Vertex2]
  AppendPolygon m TempBuffer PolygonGroup none none

/-- Source lines 146-175, `FMeshDescriptionBuilder::AppendTriangle` (vertex array with
optional per-corner UV and normal arrays, each of three elements). -/
def AppendTriangleArrays (m : FMeshDescription R) (Triangle : Nat × Nat × Nat)
    (PolygonGroup : Nat) (VertexUVs : Option (FVector2D R × FVector2D R × FVector2D R))
    (VertexNormals : Option (FVector R × FVector R × FVector R)) : Outcome R Nat :=
  let TempBuffer := [Triangle.1, Triangle.2.1, Triangle.2.2]
  let UseUVs := VertexUVs.map (fun uv => [uv.1, uv.2.1, uv.2.2])
  let UseNormals := VertexNormals.map (fun n => [n.1, n.2.1, n.2.2])
  AppendPolygon m TempBuffer PolygonGroup UseUVs UseNormals

/-- The `for` loop of `Translate` over the vertices still to visit. -/
def TranslateLoop [Add R] (Translation : FVector R) :
    FMeshDescription R → List Nat → Outcome R Unit
  | m, [] => (.ok (), m)
  | m, VertexID :: rest =>
    match VertexPositions_Get m VertexID 0 with
    | .error e => (.error e, m)
    | .ok Position =>
      match VertexPositions_Set m VertexID 0 (Position + Translation) with
      | .error e => (.error e, m)
      | .ok m1 => TranslateLoop Translation m1 rest

/-- Source lines 237-245, `FMeshDescriptionBuilder::Translate`. -/
def Translate [Add R] (m : FMeshDescription R) (Translation : FVector R) : Outcome R Unit :=
  TranslateLoop Translation m (GetElementIDs m.VertexArray)

/-- The `for` loop of `SetAllEdgesHardness` over the edges still to visit. -/
def SetAllEdgesHardnessLoop (bHard : Bool) : FMeshDescription R → List Nat → Outcome R Unit
  | m, [] => (.ok (), m)
  | m, EdgeID :: rest =>
    match EdgeHardness_Set m EdgeID 0 bHard with
    | .error e => (.error e, m)
    | .ok m1 => SetAllEdgesHardnessLoop bHard m1 rest

/-- Source lines 250-258, `FMeshDescriptionBuilder::SetAllEdgesHardness`. -/
def SetAllEdgesHardness (m : FMeshDescription R) (bHard : Bool) : Outcome R Unit :=
  SetAllEdgesHardnessLoop bHard m (GetElementIDs m.EdgeArray)

/-- The `for` loop of `ComputeBoundingBox` over the vertices still to visit. -/
def ComputeBoundingBoxLoop [LinearOrder R] (m : FMeshDescription R) :
    FAxisAlignedBox3 R → List Nat → Except MeshError (FAxisAlignedBox3 R)
  | bounds, [] => .ok bounds
  | bounds, VertexID :: rest =>
    match VertexPositions_Get m VertexID 0 with
    | .error e => .error e
    | .ok p => ComputeBoundingBoxLoop m (bounds.Contain p) rest

/-- Source lines 263-271, `FMeshDescriptionBuilder::ComputeBoundingBox`. -/
def ComputeBoundingBox [LinearOrder R] (m : FMeshDescription R) :
    Except MeshError (FAxisAlignedBox3 R) :=
  ComputeBoundingBoxLoop m .Empty (GetElementIDs m.VertexArray)

/-! ## Notions used to state the properties -/

/-- The position table after `Translate`: layer 0 of every visited vertex is shifted. -/
def TranslatedPositions [Add R] (P : TAttributesRef (FVector R)) (ids : List Nat)
    (t : FVector R) : TAttributesRef (FVector R) :=
  ⟨P.Default, fun v layer => if v ∈ ids ∧ layer = 0 then P.Data v 0 + t else P.Data v layer⟩

/-- Layer-0 positions of the live vertices, in identifier order. -/
def LivePositions (m : FMeshDescription R) : List (FVector R) :=
  (GetElementIDs m.VertexArray).map (fun v => m.Position.Data v 0)

/-- The values a coordinate takes over the live vertices of a mesh. -/
def LiveCoordinates (m : FMeshDescription R) (f : FVector R → R) : Set R :=
  {x | ∃ v, IsValid m.VertexArray v = true ∧ f (m.Position.Data v 0) = x}

/-- The hardness table after `SetAllEdgesHardness`: layer 0 of every visited edge holds
the flag. -/
def HardenedEdges (H : TAttributesRef Bool) (ids : List Nat) (bHard : Bool) :
    TAttributesRef Bool :=
  ⟨H.Default, fun e layer => if e ∈ ids ∧ layer = 0 then bHard else H.Data e layer⟩

/-- The texture coordinate stored for an instance and a layer, when the table exists. -/
def UVData (m : FMeshDescription R) (InstanceID : Nat) (layer : Int) : Option (FVector2D R) :=
  m.TextureCoordinate.map (fun t => t.Data InstanceID layer)

/-- The normal stored for an instance and a layer, when the table exists. -/
def NormalData (m : FMeshDescription R) (InstanceID : Nat) (layer : Int) : Option (FVector R) :=
  m.Normal.map (fun t => t.Data InstanceID layer)

/-- The colour stored for an instance and a layer, when the table exists. -/
def ColorData (m : FMeshDescription R) (InstanceID : Nat) (layer : Int) : Option (FVector4 R) :=
  m.Color.map (fun t => t.Data InstanceID layer)

/-- A table entered for a new element `id`: reset to the default, then layer 0 written
when a value is given. -/
def EnterCorner {T : Type} (t : TAttributesRef T) (id : Nat) (value : Option T) :
    TAttributesRef T :=
  match value with
  | none => t.Reset id
  | some x => (t.Reset id).Write id 0 x

/-- The mesh after one completed pass of the loop body of `AppendPolygon` on vertex `v`,
with the UV and normal written on the new instance (`none`: not written). -/
def CornerMesh (m : FMeshDescription R) (v : Nat) (uv : Option (FVector2D R))
    (n : Option (FVector R)) : FMeshDescription R :=
  { m with
    VertexInstanceArray := Insert m.VertexInstanceArray v
    TextureCoordinate := m.TextureCoordinate.map
      (fun t => EnterCorner t (NextFree m.VertexInstanceArray) uv)
    Normal := m.Normal.map (fun t => EnterCorner t (NextFree m.VertexInstanceArray) n)
    Color := m.Color.map (·.Reset (NextFree m.VertexInstanceArray)) }

/-- What a polygon-appending call may change before it creates the polygon: nothing
but the vertex-instance domain, and there only instances that were not live.  Vertices,
edges, polygons, polygon groups, the position, hardness and tag tables, the number of
UV layers and the table defaults are the same, and every instance live in `m` keeps
its vertex, UVs, normal and colour in `m1`. -/
structure OnlyInstancesAdded (m m1 : FMeshDescription R) : Prop where
  VertexArray : m1.VertexArray = m.VertexArray
  EdgeArray : m1.EdgeArray = m.EdgeArray
  PolygonArray : m1.PolygonArray = m.PolygonArray
  PolygonGroupArray : m1.PolygonGroupArray = m.PolygonGroupArray
  NumUVLayers : m1.NumUVLayers = m.NumUVLayers
  Position : m1.Position = m.Position
  IsHard : m1.IsHard = m.IsHard
  PolyTriGroups : m1.PolyTriGroups = m.PolyTriGroups
  UVDefault : m1.TextureCoordinate.map (·.Default) = m.TextureCoordinate.map (·.Default)
  NormalDefault : m1.Normal.map (·.Default) = m.Normal.map (·.Default)
  ColorDefault : m1.Color.map (·.Default) = m.Color.map (·.Default)
  Instances : ∀ i, IsValid m.VertexInstanceArray i = true →
    ElementAt m1.VertexInstanceArray i = ElementAt m.VertexInstanceArray i ∧
    (∀ layer, UVData m1 i layer = UVData m i layer) ∧
    (∀ layer, NormalData m1 i layer = NormalData m i layer) ∧
    (∀ layer, ColorData m1 i layer = ColorData m i layer)

/-- What the loop of `AppendPolygon` has done once it has visited the vertices `vs`
(corner indices `j`, `j+1`, ...) and collected the instances `ids`, leading from mesh
`m` to mesh `m1`: one new instance per vertex, in order, each referencing its vertex;
no other instance slot touched; layer 0 of UV and normal of the k-th new instance holds
element `j+k` of a supplied array, and an attribute whose array is not supplied still
holds the table default on every new instance. -/
structure CornersAppended (uvs : Option (List (FVector2D R)))
    (normals : Option (List (FVector R))) (m : FMeshDescription R) (vs : List Nat) (j : Nat)
    (ids : List Nat) (m1 : FMeshDescription R) : Prop where
  length : ids.length = vs.length
  nodup : ids.Nodup
  fresh : ∀ i ∈ ids, IsValid m.VertexInstanceArray i = false
  vertices : ids.map (ElementAt m1.VertexInstanceArray) = vs.map some
  others : ∀ i, i ∉ ids →
    ElementAt m1.VertexInstanceArray i = ElementAt m.VertexInstanceArray i
  uvWritten : ∀ u, uvs = some u → ∀ k i, ids[k]? = some i →
    ∃ x, u[j + k]? = some x ∧ UVData m1 i 0 = some x
  uvUntouched : uvs = none → ∀ i ∈ ids, ∀ layer,
    UVData m1 i layer = m.TextureCoordinate.map (·.Default)
  normalWritten : ∀ n, normals = some n → ∀ k i, ids[k]? = some i →
    ∃ x, n[j + k]? = some x ∧ NormalData m1 i 0 = some x
  normalUntouched : normals = none → ∀ i ∈ ids, ∀ layer,
    NormalData m1 i layer = m.Normal.map (·.Default)

/-- The arguments of a polygon-appending call can be carried out corner by corner from
index `j` on: every listed vertex is live, and a supplied array belongs to a registered
table (with at least one UV layer) and has an element for every corner. -/
def CornersUsable (uvs : Option (List (FVector2D R))) (normals : Option (List (FVector R)))
    (m : FMeshDescription R) (vs : List Nat) (j : Nat) : Prop :=
  (∀ v ∈ vs, IsValid m.VertexArray v = true) ∧
  (∀ u, uvs = some u →
    m.TextureCoordinate.isSome = true ∧ 0 < m.NumUVLayers ∧ j + vs.length ≤ u.length) ∧
  (∀ n, normals = some n → m.Normal.isSome = true ∧ j + vs.length ≤ n.length)

/-- What `CreatePolygon` may change besides the polygon it stores: edges, the hardness
table and the tag entry of the new polygon.  Everything else is the same. -/
structure OnlyEdgesChanged (m m1 : FMeshDescription R) : Prop where
  VertexArray : m1.VertexArray = m.VertexArray
  VertexInstanceArray : m1.VertexInstanceArray = m.VertexInstanceArray
  PolygonArray : m1.PolygonArray = m.PolygonArray
  PolygonGroupArray : m1.PolygonGroupArray = m.PolygonGroupArray
  NumUVLayers : m1.NumUVLayers = m.NumUVLayers
  Position : m1.Position = m.Position
  TextureCoordinate : m1.TextureCoordinate = m.TextureCoordinate
  Normal : m1.Normal = m.Normal
  Color : m1.Color = m.Color
  PolyTriGroups : m1.PolyTriGroups = m.PolyTriGroups

/-! ## A concrete mesh: the triangle of the example scenario -/

/-- An empty mesh over the integers with one UV layer and all tables registered. -/
def emptyMesh : FMeshDescription Int :=
  { VertexArray := [], VertexInstanceArray := [], EdgeArray := [], PolygonArray := [],
    PolygonGroupArray := [], NumUVLayers := 1,
    Position := ⟨⟨0, 0, 0⟩, fun _ _ => ⟨0, 0, 0⟩⟩,
    TextureCoordinate := some ⟨⟨0, 0⟩, fun _ _ => ⟨0, 0⟩⟩,
    Normal := some ⟨⟨0, 0, 0⟩, fun _ _ => ⟨0, 0, 0⟩⟩,
    Color := some ⟨⟨1, 1, 1, 1⟩, fun _ _ => ⟨1, 1, 1, 1⟩⟩,
    IsHard := ⟨false, fun _ _ => false⟩,
    PolyTriGroups := none }

/-- Vertices at (0,0,0), (1,0,0), (0,1,0) and one polygon group. -/
def threeVertices : FMeshDescription Int :=
  let m1 := (AppendVertex emptyMesh ⟨0, 0, 0⟩).2
  let m2 := (AppendVertex m1 ⟨1, 0, 0⟩).2
  let m3 := (AppendVertex m2 ⟨0, 1, 0⟩).2
  (AppendPolygonGroup m3).2

/-- The example mesh: `threeVertices` with the triangle appended. -/
def triangleMesh : FMeshDescription Int :=
  (AppendTriangle threeVertices 0 1 2 0).2

/-! ## Sparse element arrays: basic facts -/

theorem ElementAt_NextFree {α : Type} (arr : TMeshElementArray α) :
    ElementAt arr (NextFree arr) = none := by
  induction arr with
  | nil => rfl
  | cons x xs ih =>
    cases x with
    | none => rfl
    | some b => simpa [NextFree, ElementAt] using ih

theorem ElementAt_Insert {α : Type} (arr : TMeshElementArray α) (a : α) (i : Nat) :
    ElementAt (Insert arr a) i = if i = NextFree arr then some a else ElementAt arr i := by
  induction arr generalizing i with
  | nil =>
    cases i with
    | zero => rfl
    | succ n => simp [Insert, ElementAt, NextFree]
  | cons x xs ih =>
    cases x with
    | none =>
      cases i with
      | zero => rfl
      | succ n => simp [Insert, ElementAt, NextFree]
    | some b =>
      cases i with
      | zero => simp [Insert, ElementAt, NextFree]
      | succ n => simp [Insert, ElementAt, NextFree, ih]

theorem IsValid_NextFree {α : Type} (arr : TMeshElementArray α) :
    IsValid arr (NextFree arr) = false := by
  simp [IsValid, ElementAt_NextFree]

theorem IsValid_Insert {α : Type} (arr : TMeshElementArray α) (a : α) (i : Nat) :
    IsValid (Insert arr a) i = (decide (i = NextFree arr) || IsValid arr i) := by
  unfold IsValid
  rw [ElementAt_Insert]
  by_cases h : i = NextFree arr
  · simp [h]
  · simp [h]

theorem mem_GetElementIDs {α : Type} (arr : TMeshElementArray α) (i : Nat) :
    i ∈ GetElementIDs arr ↔ IsValid arr i = true := by
  induction arr generalizing i with
  | nil => simp [GetElementIDs, IsValid, ElementAt]
  | cons x xs ih =>
    cases x with
    | none =>
      cases i with
      | zero => simp [GetElementIDs, IsValid, ElementAt]
      | succ n =>
        have := ih n
        simpa [GetElementIDs, IsValid, ElementAt] using this
    | some b =>
      cases i with
      | zero => simp [GetElementIDs, IsValid, ElementAt]
      | succ n =>
        have := ih n
        simpa [GetElementIDs, IsValid, ElementAt] using this

theorem GetElementIDs_nodup {α : Type} (arr : TMeshElementArray α) :
    (GetElementIDs arr).Nodup := by
  induction arr with
  | nil => simp [GetElementIDs]
  | cons x xs ih =>
    have hinj : Function.Injective (fun n : Nat => n + 1) := fun a b h => by simpa using h
    cases x with
    | none => simpa [GetElementIDs] using ih.map hinj
    | some b =>
      simp only [GetElementIDs, List.nodup_cons]
      exact ⟨by simp, ih.map hinj⟩

/-! ## Position accessors -/

theorem VertexPositions_Get_live (m : FMeshDescription R) (v : Nat)
    (h : IsValid m.VertexArray v = true) :
    VertexPositions_Get m v 0 = .ok (m.Position.Data v 0) := by
  simp [VertexPositions_Get, TAttributesRef.Get, h]

theorem VertexPositions_Set_live (m : FMeshDescription R) (v : Nat) (p : FVector R)
    (h : IsValid m.VertexArray v = true) :
    VertexPositions_Set m v 0 p = .ok { m with Position :=
      ⟨m.Position.Default,
        Function.update m.Position.Data v (Function.update (m.Position.Data v) 0 p)⟩ } := by
  simp [VertexPositions_Set, TAttributesRef.Set, TAttributesRef.Write, h]

theorem TranslateLoop_eq [Add R] (t : FVector R) (ids : List Nat) :
    ∀ m : FMeshDescription R, (∀ v ∈ ids, IsValid m.VertexArray v = true) → ids.Nodup →
      TranslateLoop t m ids =
        (.ok (), { m with Position := TranslatedPositions m.Position ids t }) := by
  induction ids with
  | nil =>
    intro m _ _
    simp [TranslateLoop, TranslatedPositions]
  | cons v rest ih =>
    intro m hlive hnd
    have hv : IsValid m.VertexArray v = true := hlive v (List.mem_cons_self _ _)
    have hnd2 := List.nodup_cons.mp hnd
    simp only [TranslateLoop, VertexPositions_Get_live m v hv, VertexPositions_Set_live m v _ hv]
    rw [ih]
    · simp only [TranslatedPositions, Prod.mk.injEq, true_and]
      congr 2
      funext w layer
      by_cases hwv : w = v
      · subst hwv
        by_cases hl : layer = 0
        · simp [hnd2.1, hl]
        · simp [hnd2.1, hl]
      · simp [hwv, Function.update_noteq hwv]
    · exact fun w hw => hlive w (List.mem_cons_of_mem _ hw)
    · exact hnd2.2

theorem Translate_eq [Add R] (m : FMeshDescription R) (t : FVector R) :
    Translate m t = (.ok (),
      { m with Position := TranslatedPositions m.Position (GetElementIDs m.VertexArray) t }) :=
  TranslateLoop_eq t (GetElementIDs m.VertexArray) m
    (fun v hv => (mem_GetElementIDs _ v).mp hv) (GetElementIDs_nodup _)

/-- C2: after `Translate(t)` the position of every live vertex is its former position
plus `t`, every other position entry is as before, and the mesh differs from the
former mesh in the position table only: element arrays (vertices, instances with the
vertex each references, edges, polygons with their corner lists, polygon groups) and
all other attribute tables are the same.  The call always completes. -/
theorem Translate_moves_positions_only [Add R] (m : FMeshDescription R) (t : FVector R) :
    ∃ P : TAttributesRef (FVector R),
      Translate m t = (.ok (), { m with Position := P }) ∧
      P.Default = m.Position.Default ∧
      (∀ v, IsValid m.VertexArray v = true → P.Data v 0 = m.Position.Data v 0 + t) ∧
      (∀ v layer, IsValid m.VertexArray v = false ∨ layer ≠ 0 →
        P.Data v layer = m.Position.Data v layer) ∧
      (∀ v, GetPosition (Translate m t).2 v = (GetPosition m v).map (· + t)) := by
  have hloop := Translate_eq m t
  refine ⟨TranslatedPositions m.Position (GetElementIDs m.VertexArray) t, hloop, rfl, ?_, ?_, ?_⟩
  · intro v hv
    simp [TranslatedPositions, mem_GetElementIDs, hv]
  · intro v layer h
    rcases h with h | h
    · simp [TranslatedPositions, mem_GetElementIDs, h]
    · simp [TranslatedPositions, h]
  · intro v
    rw [hloop]
    cases hv : IsValid m.VertexArray v with
    | true =>
      simp [GetPosition, VertexPositions_Get, TAttributesRef.Get, hv, TranslatedPositions,
        mem_GetElementIDs, Except.map]
    | false =>
      simp [GetPosition, VertexPositions_Get, TAttributesRef.Get, hv, Except.map]

/-- Witness of C2: vertex 1 of the example triangle moves from (1,0,0) to (2,0,0). -/
theorem Translate_moves_positions_only_witness :
    IsValid triangleMesh.VertexArray 1 = true ∧
    GetPosition (Translate triangleMesh ⟨1, 0, 0⟩).2 1 = .ok ⟨2, 0, 0⟩ ∧
    GetPosition (Translate triangleMesh ⟨1, 0, 0⟩).2 1 =
      (GetPosition triangleMesh 1).map (· + ⟨1, 0, 0⟩) :=
  ⟨by decide, rfl,
    let ⟨_, _, _, _, _, h⟩ := Translate_moves_positions_only triangleMesh ⟨1, 0, 0⟩
    h 1⟩

/-- C7: on a live vertex `SetPosition(v, p)` completes and `GetPosition(v)` right after
it returns exactly `p`; `AppendVertex(p)` returns a vertex whose `GetPosition` is
exactly `p`. -/
theorem SetPosition_GetPosition_roundtrip (m : FMeshDescription R) (p : FVector R) :
    (∀ v, IsValid m.VertexArray v = true →
      (SetPosition m v p).1 = .ok () ∧ GetPosition (SetPosition m v p).2 v = .ok p) ∧
    (∃ id, (AppendVertex m p).1 = .ok id ∧ GetPosition (AppendVertex m p).2 id = .ok p) := by
  constructor
  · intro v hv
    simp [SetPosition, VertexPositions_Set_live m v p hv, GetPosition, VertexPositions_Get,
      TAttributesRef.Get, hv]
  · refine ⟨NextFree m.VertexArray, ?_⟩
    have hlive : IsValid (m.CreateVertex).2.VertexArray (NextFree m.VertexArray) = true := by
      simp [FMeshDescription.CreateVertex, IsValid_Insert]
    have hset := VertexPositions_Set_live (m.CreateVertex).2 (NextFree m.VertexArray) p hlive
    have h1 : (m.CreateVertex).1 = NextFree m.VertexArray := rfl
    simp only [AppendVertex, h1, hset]
    refine ⟨trivial, ?_⟩
    simp [GetPosition, VertexPositions_Get, TAttributesRef.Get, FMeshDescription.CreateVertex,
      IsValid_Insert]

/-- Witness of C7 on the example triangle. -/
theorem SetPosition_GetPosition_roundtrip_witness :
    IsValid triangleMesh.VertexArray 1 = true ∧
      GetPosition (SetPosition triangleMesh 1 ⟨7, 8, 9⟩).2 1 = .ok ⟨7, 8, 9⟩ :=
  ⟨by decide, ((SetPosition_GetPosition_roundtrip triangleMesh ⟨7, 8, 9⟩).1 1 (by decide)).2⟩

/-! ## Bounding box: the fold and its extrema -/

theorem ComputeBoundingBoxLoop_eq [LinearOrder R] (m : FMeshDescription R) (ids : List Nat) :
    ∀ b : FAxisAlignedBox3 R, (∀ v ∈ ids, IsValid m.VertexArray v = true) →
      ComputeBoundingBoxLoop m b ids =
        .ok ((ids.map (fun v => m.Position.Data v 0)).foldl FAxisAlignedBox3.Contain b) := by
  induction ids with
  | nil => intro b _; rfl
  | cons v rest ih =>
    intro b hlive
    have hv := hlive v (List.mem_cons_self _ _)
    simp only [ComputeBoundingBoxLoop, VertexPositions_Get_live m v hv, List.map_cons,
      List.foldl_cons]
    exact ih _ (fun w hw => hlive w (List.mem_cons_of_mem _ hw))

theorem ComputeBoundingBox_eq_fold [LinearOrder R] (m : FMeshDescription R) :
    ComputeBoundingBox m = .ok ((LivePositions m).foldl FAxisAlignedBox3.Contain .Empty) :=
  ComputeBoundingBoxLoop_eq m _ _ (fun v hv => (mem_GetElementIDs _ v).mp hv)

theorem foldl_Contain_Box [LinearOrder R] (ps : List (FVector R)) :
    ∀ mn mx : FVector R, ps.foldl FAxisAlignedBox3.Contain (.Box mn mx) =
      .Box ⟨(ps.map FVector.X).foldl min mn.X, (ps.map FVector.Y).foldl min mn.Y,
            (ps.map FVector.Z).foldl min mn.Z⟩
           ⟨(ps.map FVector.X).foldl max mx.X, (ps.map FVector.Y).foldl max mx.Y,
            (ps.map FVector.Z).foldl max mx.Z⟩ := by
  induction ps with
  | nil => intro mn mx; rfl
  | cons p ps ih =>
    intro mn mx
    simp only [List.foldl_cons, FAxisAlignedBox3.Contain, List.map_cons]
    rw [ih]

theorem foldl_min_isLeast [LinearOrder R] (l : List R) :
    ∀ a : R, IsLeast {x | x = a ∨ x ∈ l} (l.foldl min a) := by
  induction l with
  | nil =>
    intro a
    refine ⟨Or.inl rfl, fun x hx => ?_⟩
    rcases hx with hx | hx
    · exact le_of_eq hx.symm
    · exact absurd hx (List.not_mem_nil _)
  | cons b l ih =>
    intro a
    obtain ⟨hmem, hlb⟩ := ih (min a b)
    refine ⟨?_, ?_⟩
    · rcases hmem with h | h
      · rcases min_choice a b with hc | hc
        · exact Or.inl (by rw [List.foldl_cons, h, hc])
        · exact Or.inr (by rw [List.foldl_cons, h, hc]; exact List.mem_cons_self _ _)
      · exact Or.inr (List.mem_cons_of_mem _ h)
    · intro x hx
      have hle : l.foldl min (min a b) ≤ min a b := hlb (Or.inl rfl)
      rcases hx with hx | hx
      · rw [hx]; exact le_trans hle (min_le_left _ _)
      · rcases List.mem_cons.mp hx with hx | hx
        · rw [hx]; exact le_trans hle (min_le_right _ _)
        · exact hlb (Or.inr hx)

theorem foldl_max_isGreatest [LinearOrder R] (l : List R) :
    ∀ a : R, IsGreatest {x | x = a ∨ x ∈ l} (l.foldl max a) := by
  induction l with
  | nil =>
    intro a
    refine ⟨Or.inl rfl, fun x hx => ?_⟩
    rcases hx with hx | hx
    · exact le_of_eq hx
    · exact absurd hx (List.not_mem_nil _)
  | cons b l ih =>
    intro a
    obtain ⟨hmem, hub⟩ := ih (max a b)
    refine ⟨?_, ?_⟩
    · rcases hmem with h | h
      · rcases max_choice a b with hc | hc
        · exact Or.inl (by rw [List.foldl_cons, h, hc])
        · exact Or.inr (by rw [List.foldl_cons, h, hc]; exact List.mem_cons_self _ _)
      · exact Or.inr (List.mem_cons_of_mem _ h)
    · intro x hx
      have hle : max a b ≤ l.foldl max (max a b) := hub (Or.inl rfl)
      rcases hx with hx | hx
      · rw [hx]; exact le_trans (le_max_left _ _) hle
      · rcases List.mem_cons.mp hx with hx | hx
        · rw [hx]; exact le_trans (le_max_right _ _) hle
        · exact hub (Or.inr hx)

theorem LiveCoordinates_eq (m : FMeshDescription R) (f : FVector R → R) (p : FVector R)
    (ps : List (FVector R)) (h : LivePositions m = p :: ps) :
    LiveCoordinates m f = {x | x = f p ∨ x ∈ ps.map f} := by
  ext x
  have hmem : ∀ q, q ∈ LivePositions m ↔ ∃ v, IsValid m.VertexArray v = true ∧
      m.Position.Data v 0 = q := by
    intro q
    simp [LivePositions, mem_GetElementIDs]
  simp only [LiveCoordinates, Set.mem_setOf_eq]
  constructor
  · rintro ⟨v, hv, rfl⟩
    have : m.Position.Data v 0 ∈ p :: ps := h ▸ (hmem _).mpr ⟨v, hv, rfl⟩
    rcases List.mem_cons.mp this with h1 | h1
    · exact Or.inl (by rw [h1])
    · exact Or.inr (List.mem_map_of_mem f h1)
  · rintro (hx | hx)
    · obtain ⟨v, hv, hq⟩ := (hmem p).mp (h ▸ List.mem_cons_self _ _)
      exact ⟨v, hv, by rw [hq, hx]⟩
    · obtain ⟨q, hq, rfl⟩ := List.mem_map.mp hx
      obtain ⟨v, hv, hq2⟩ := (hmem q).mp (h ▸ List.mem_cons_of_mem _ hq)
      exact ⟨v, hv, by rw [hq2]⟩

theorem LivePositions_eq_nil (m : FMeshDescription R)
    (h : ∀ v, IsValid m.VertexArray v = false) : LivePositions m = [] := by
  have : GetElementIDs m.VertexArray = [] := by
    apply List.eq_nil_iff_forall_not_mem.mpr
    intro v hv
    have := (mem_GetElementIDs _ v).mp hv
    rw [h v] at this
    exact Bool.noConfusion this
  simp [LivePositions, this]

theorem LivePositions_ne_nil (m : FMeshDescription R)
    (h : ∃ v, IsValid m.VertexArray v = true) : LivePositions m ≠ [] := by
  obtain ⟨v, hv⟩ := h
  intro hnil
  have hm : v ∈ GetElementIDs m.VertexArray := (mem_GetElementIDs _ v).mpr hv
  have : m.Position.Data v 0 ∈ LivePositions m := List.mem_map_of_mem _ hm
  rw [hnil] at this
  exact List.not_mem_nil _ this

/-- C1: `ComputeBoundingBox` completes and returns the fold of `Contain` over the
positions of the live vertices, started from the empty box.  With no live vertex that
is the canonical empty box, for which containing any point `p` gives min = max = `p`.
With at least one live vertex it is the box whose minimum corner holds, per
coordinate, the least value and whose maximum corner holds the greatest value taken
by the live vertex positions. -/
theorem ComputeBoundingBox_is_componentwise_min_max [LinearOrder R] (m : FMeshDescription R) :
    ComputeBoundingBox m = .ok ((LivePositions m).foldl FAxisAlignedBox3.Contain .Empty) ∧
    ((∀ v, IsValid m.VertexArray v = false) → ComputeBoundingBox m = .ok .Empty) ∧
    (∀ p : FVector R, FAxisAlignedBox3.Empty.Contain p = .Box p p) ∧
    ((∃ v, IsValid m.VertexArray v = true) →
      ∃ mn mx : FVector R, ComputeBoundingBox m = .ok (.Box mn mx) ∧
        IsLeast (LiveCoordinates m FVector.X) mn.X ∧
        IsLeast (LiveCoordinates m FVector.Y) mn.Y ∧
        IsLeast (LiveCoordinates m FVector.Z) mn.Z ∧
        IsGreatest (LiveCoordinates m FVector.X) mx.X ∧
        IsGreatest (LiveCoordinates m FVector.Y) mx.Y ∧
        IsGreatest (LiveCoordinates m FVector.Z) mx.Z) := by
  refine ⟨ComputeBoundingBox_eq_fold m, ?_, fun _ => rfl, ?_⟩
  · intro h
    rw [ComputeBoundingBox_eq_fold, LivePositions_eq_nil m h]
    rfl
  · intro h
    cases hps : LivePositions m with
    | nil => exact absurd hps (LivePositions_ne_nil m h)
    | cons p ps =>
      refine ⟨⟨(ps.map FVector.X).foldl min p.X, (ps.map FVector.Y).foldl min p.Y,
          (ps.map FVector.Z).foldl min p.Z⟩,
        ⟨(ps.map FVector.X).foldl max p.X, (ps.map FVector.Y).foldl max p.Y,
          (ps.map FVector.Z).foldl max p.Z⟩, ?_, ?_⟩
      · rw [ComputeBoundingBox_eq_fold, hps, List.foldl_cons]
        exact congrArg Except.ok (foldl_Contain_Box ps p p)
      · simp only [LiveCoordinates_eq m _ p ps hps]
        exact ⟨foldl_min_isLeast _ _, foldl_min_isLeast _ _, foldl_min_isLeast _ _,
          foldl_max_isGreatest _ _, foldl_max_isGreatest _ _, foldl_max_isGreatest _ _⟩

/-- Witness of C1: the example triangle has box min (0,0,0), max (1,1,0). -/
theorem ComputeBoundingBox_is_componentwise_min_max_witness :
    (∃ v, IsValid triangleMesh.VertexArray v = true) ∧
      ComputeBoundingBox triangleMesh = .ok (.Box ⟨0, 0, 0⟩ ⟨1, 1, 0⟩) ∧
      ∃ mn mx : FVector Int, ComputeBoundingBox triangleMesh = .ok (.Box mn mx) ∧
        IsLeast (LiveCoordinates triangleMesh FVector.X) mn.X :=
  ⟨⟨0, by decide⟩, rfl,
    let ⟨mn, mx, h, hx, _⟩ :=
      (ComputeBoundingBox_is_componentwise_min_max triangleMesh).2.2.2 ⟨0, by decide⟩
    ⟨mn, mx, h, hx⟩⟩

/-! ## Bounding box under translation -/

theorem Contain_add [LinearOrder R] [Add R] [AddRightMono R] (mn mx p t : FVector R) :
    (FAxisAlignedBox3.Box (mn + t) (mx + t)).Contain (p + t) =
      match (FAxisAlignedBox3.Box mn mx).Contain p with
      | .Box a b => .Box (a + t) (b + t)
      | .Empty => .Empty := by
  show FAxisAlignedBox3.Contain (.Box (FVector.add mn t) (FVector.add mx t)) (FVector.add p t) = _
  simp only [FAxisAlignedBox3.Contain, FVector.add, min_add_add_right, max_add_add_right]
  rfl

theorem foldl_Contain_add [LinearOrder R] [Add R] [AddRightMono R] (t : FVector R)
    (ps : List (FVector R)) :
    ∀ mn mx a b : FVector R, ps.foldl FAxisAlignedBox3.Contain (.Box mn mx) = .Box a b →
      (ps.map (· + t)).foldl FAxisAlignedBox3.Contain (.Box (mn + t) (mx + t)) =
        .Box (a + t) (b + t) := by
  induction ps with
  | nil =>
    intro mn mx a b h
    simp only [List.foldl_nil, FAxisAlignedBox3.Box.injEq] at h
    simp [h.1, h.2]
  | cons p ps ih =>
    intro mn mx a b h
    simp only [List.map_cons, List.foldl_cons] at h ⊢
    rw [Contain_add]
    cases hc : (FAxisAlignedBox3.Box mn mx).Contain p with
    | Empty => simp [FAxisAlignedBox3.Contain] at hc
    | Box c d =>
      rw [hc] at h
      exact ih c d a b h

theorem LivePositions_Translate [Add R] (m : FMeshDescription R) (t : FVector R) :
    LivePositions (Translate m t).2 = (LivePositions m).map (· + t) := by
  rw [Translate_eq]
  simp only [LivePositions, List.map_map]
  apply List.map_congr_left
  intro v hv
  simp [TranslatedPositions, hv]

/-- C10: for a mesh with at least one live vertex, the bounding box computed after
`Translate(t)` has the minimum and maximum corners of the box computed before the
call, each shifted by `t`. -/
theorem ComputeBoundingBox_commutes_with_Translate [LinearOrder R] [Add R] [AddRightMono R]
    (m : FMeshDescription R) (t : FVector R) (h : ∃ v, IsValid m.VertexArray v = true) :
    ∃ mn mx : FVector R, ComputeBoundingBox m = .ok (.Box mn mx) ∧
      ComputeBoundingBox (Translate m t).2 = .ok (.Box (mn + t) (mx + t)) := by
  cases hps : LivePositions m with
  | nil => exact absurd hps (LivePositions_ne_nil m h)
  | cons p ps =>
    obtain ⟨a, b, hbefore⟩ : ∃ a b : FVector R,
        ps.foldl FAxisAlignedBox3.Contain (.Box p p) = .Box a b :=
      ⟨_, _, foldl_Contain_Box ps p p⟩
    refine ⟨a, b, ?_, ?_⟩
    · rw [ComputeBoundingBox_eq_fold, hps, List.foldl_cons]
      exact congrArg Except.ok hbefore
    · rw [ComputeBoundingBox_eq_fold, LivePositions_Translate, hps, List.map_cons,
        List.foldl_cons]
      exact congrArg Except.ok (foldl_Contain_add t ps p p _ _ hbefore)

/-- Witness of C10: the example triangle translated by (1,0,0) has box min (1,0,0),
max (2,1,0), the box of the triangle shifted by (1,0,0). -/
theorem ComputeBoundingBox_commutes_with_Translate_witness :
    (∃ v, IsValid triangleMesh.VertexArray v = true) ∧
      ComputeBoundingBox triangleMesh = .ok (.Box ⟨0, 0, 0⟩ ⟨1, 1, 0⟩) ∧
      ComputeBoundingBox (Translate triangleMesh ⟨1, 0, 0⟩).2 = .ok (.Box ⟨1, 0, 0⟩ ⟨2, 1, 0⟩) ∧
      ∃ mn mx : FVector Int, ComputeBoundingBox triangleMesh = .ok (.Box mn mx) ∧
        ComputeBoundingBox (Translate triangleMesh ⟨1, 0, 0⟩).2 =
          .ok (.Box (mn + ⟨1, 0, 0⟩) (mx + ⟨1, 0, 0⟩)) :=
  ⟨⟨0, by decide⟩, rfl, rfl,
    ComputeBoundingBox_commutes_with_Translate triangleMesh ⟨1, 0, 0⟩ ⟨0, by decide⟩⟩

/-! ## Edge hardness -/

theorem EdgeHardness_Set_live (m : FMeshDescription R) (e : Nat) (b : Bool)
    (h : IsValid m.EdgeArray e = true) :
    EdgeHardness_Set m e 0 b = .ok { m with IsHard :=
      ⟨m.IsHard.Default,
        Function.update m.IsHard.Data e (Function.update (m.IsHard.Data e) 0 b)⟩ } := by
  simp [EdgeHardness_Set, TAttributesRef.Set, TAttributesRef.Write, h]

theorem SetAllEdgesHardnessLoop_eq (b : Bool) (ids : List Nat) :
    ∀ m : FMeshDescription R, (∀ e ∈ ids, IsValid m.EdgeArray e = true) →
      SetAllEdgesHardnessLoop b m ids =
        (.ok (), { m with IsHard := HardenedEdges m.IsHard ids b }) := by
  induction ids with
  | nil =>
    intro m _
    simp [SetAllEdgesHardnessLoop, HardenedEdges]
  | cons e rest ih =>
    intro m hlive
    have he : IsValid m.EdgeArray e = true := hlive e (List.mem_cons_self _ _)
    simp only [SetAllEdgesHardnessLoop, EdgeHardness_Set_live m e _ he]
    rw [ih]
    · simp only [HardenedEdges, Prod.mk.injEq, true_and]
      congr 2
      funext w layer
      by_cases hwe : w = e
      · subst hwe
        by_cases hl : layer = 0
        · simp [hl]
        · simp [hl]
      · simp [hwe, Function.update_noteq hwe]
    · exact fun w hw => hlive w (List.mem_cons_of_mem _ hw)

theorem SetAllEdgesHardness_eq (m : FMeshDescription R) (b : Bool) :
    SetAllEdgesHardness m b =
      (.ok (), { m with IsHard := HardenedEdges m.IsHard (GetElementIDs m.EdgeArray) b }) :=
  SetAllEdgesHardnessLoop_eq b _ m (fun e he => (mem_GetElementIDs _ e).mp he)

/-- C9: `SetAllEdgesHardness(flag)` completes; afterwards the hardness of every live
edge reads `flag`, every other hardness entry is as before, and the mesh differs from
the former mesh in the hardness table only (same edges, same topology, same other
attributes).  On the single-triangle example mesh, whose edges are 0, 1 and 2, each
edge reads `true` after `SetAllEdgesHardness(true)`. -/
theorem SetAllEdgesHardness_sets_every_live_edge (m : FMeshDescription R) (bHard : Bool) :
    (∃ H : TAttributesRef Bool,
      SetAllEdgesHardness m bHard = (.ok (), { m with IsHard := H }) ∧
      H.Default = m.IsHard.Default ∧
      (∀ e layer, IsValid m.EdgeArray e = false ∨ layer ≠ 0 →
        H.Data e layer = m.IsHard.Data e layer)) ∧
    (∀ e, IsValid m.EdgeArray e = true →
      EdgeHardness_Get (SetAllEdgesHardness m bHard).2 e 0 = .ok bHard) ∧
    (GetElementIDs triangleMesh.EdgeArray = [0, 1, 2] ∧
      ∀ e ∈ [0, 1, 2], EdgeHardness_Get (SetAllEdgesHardness triangleMesh true).2 e 0 = .ok true) := by
  refine ⟨⟨_, SetAllEdgesHardness_eq m bHard, rfl, ?_⟩, ?_, by decide, ?_⟩
  · intro e layer h
    rcases h with h | h
    · simp [HardenedEdges, mem_GetElementIDs, h]
    · simp [HardenedEdges, h]
  · intro e he
    rw [SetAllEdgesHardness_eq]
    simp [EdgeHardness_Get, TAttributesRef.Get, he, HardenedEdges, mem_GetElementIDs]
  · intro e he
    simp only [List.mem_cons, List.mem_singleton, List.not_mem_nil, or_false] at he
    rcases he with rfl | rfl | rfl <;> rfl

/-- Witness of C9: edge 1 of the example triangle is live and reads `false` after
`SetAllEdgesHardness(false)`. -/
theorem SetAllEdgesHardness_sets_every_live_edge_witness :
    IsValid triangleMesh.EdgeArray 1 = true ∧
      EdgeHardness_Get (SetAllEdgesHardness triangleMesh false).2 1 0 = .ok false :=
  ⟨by decide, (SetAllEdgesHardness_sets_every_live_edge triangleMesh false).2.1 1 (by decide)⟩

/-! ## One corner of `AppendPolygon` -/

theorem CreateVertexInstance_live (m : FMeshDescription R) (v : Nat)
    (h : IsValid m.VertexArray v = true) :
    m.CreateVertexInstance v = .ok (NextFree m.VertexInstanceArray, CornerMesh m v none none) := by
  simp [FMeshDescription.CreateVertexInstance, h, CornerMesh, EnterCorner]

theorem CreateVertexInstance_dead (m : FMeshDescription R) (v : Nat)
    (h : IsValid m.VertexArray v = false) :
    m.CreateVertexInstance v = .error .InvalidReference := by
  simp [FMeshDescription.CreateVertexInstance, h]

theorem InstanceUVs_Set_CornerMesh (m : FMeshDescription R) (v : Nat) (n : Option (FVector R))
    (x : FVector2D R) :
    InstanceUVs_Set (CornerMesh m v none n) (NextFree m.VertexInstanceArray) 0 x =
      if m.TextureCoordinate.isSome ∧ 0 < m.NumUVLayers then .ok (CornerMesh m v (some x) n)
      else if m.TextureCoordinate.isSome then .error .IndexOutOfRange
      else .error .InvalidReference := by
  cases hT : m.TextureCoordinate with
  | none => simp [InstanceUVs_Set, CornerMesh, hT]
  | some t =>
    by_cases hN : 0 < m.NumUVLayers
    · simp [InstanceUVs_Set, CornerMesh, hT, TAttributesRef.Set, IsValid_Insert, hN, EnterCorner]
    · simp [InstanceUVs_Set, CornerMesh, hT, TAttributesRef.Set, IsValid_Insert, hN]

theorem InstanceNormals_Set_CornerMesh (m : FMeshDescription R) (v : Nat)
    (uv : Option (FVector2D R)) (x : FVector R) :
    InstanceNormals_Set (CornerMesh m v uv none) (NextFree m.VertexInstanceArray) 0 x =
      if m.Normal.isSome then .ok (CornerMesh m v uv (some x))
      else .error .InvalidReference := by
  cases hT : m.Normal with
  | none => simp [InstanceNormals_Set, CornerMesh, hT]
  | some t =>
    simp [InstanceNormals_Set, CornerMesh, hT, TAttributesRef.Set, IsValid_Insert, EnterCorner]

/-- The UV step of the loop body, on the mesh the instance creation left. -/
theorem AppendPolygonCornerUV_cases (uvs : Option (List (FVector2D R)))
    (m : FMeshDescription R) (v j : Nat) :
    (∃ e, AppendPolygonCornerUV uvs (CornerMesh m v none none) (NextFree m.VertexInstanceArray) j
        = (.error e, CornerMesh m v none none)) ∨
    (AppendPolygonCornerUV uvs (CornerMesh m v none none) (NextFree m.VertexInstanceArray) j
        = (.ok (), CornerMesh m v (uvs.bind (·[j]?)) none) ∧
      ∀ u, uvs = some u → u[j]?.isSome ∧ m.TextureCoordinate.isSome ∧ 0 < m.NumUVLayers) := by
  cases uvs with
  | none => right; simp [AppendPolygonCornerUV]
  | some us =>
    cases huj : us[j]? with
    | none => left; exact ⟨.IndexOutOfRange, by simp [AppendPolygonCornerUV, ArrayAt, huj]⟩
    | some x =>
      by_cases hT : m.TextureCoordinate.isSome ∧ 0 < m.NumUVLayers
      · right
        simp [AppendPolygonCornerUV, ArrayAt, huj, InstanceUVs_Set_CornerMesh, hT]
      · left
        by_cases hT2 : m.TextureCoordinate.isSome
        · have hN : ¬ 0 < m.NumUVLayers := fun h => hT ⟨hT2, h⟩
          exact ⟨.IndexOutOfRange, by
            simp [AppendPolygonCornerUV, ArrayAt, huj, InstanceUVs_Set_CornerMesh, hT2, hN]⟩
        · exact ⟨.InvalidReference, by
            simp [AppendPolygonCornerUV, ArrayAt, huj, InstanceUVs_Set_CornerMesh, hT, hT2]⟩

/-- The normal step of the loop body, on the mesh the UV step left. -/
theorem AppendPolygonCornerNormal_cases (normals : Option (List (FVector R)))
    (m : FMeshDescription R) (v j : Nat) (uv : Option (FVector2D R)) :
    (∃ e, AppendPolygonCornerNormal normals (CornerMesh m v uv none)
        (NextFree m.VertexInstanceArray) j = (.error e, CornerMesh m v uv none)) ∨
    (AppendPolygonCornerNormal normals (CornerMesh m v uv none)
        (NextFree m.VertexInstanceArray) j
        = (.ok (), CornerMesh m v uv (normals.bind (·[j]?))) ∧
      ∀ n, normals = some n → n[j]?.isSome ∧ m.Normal.isSome) := by
  cases normals with
  | none => right; simp [AppendPolygonCornerNormal]
  | some ns =>
    cases hnj : ns[j]? with
    | none => left; exact ⟨.IndexOutOfRange, by simp [AppendPolygonCornerNormal, ArrayAt, hnj]⟩
    | some x =>
      by_cases hT : m.Normal.isSome
      · right
        simp [AppendPolygonCornerNormal, ArrayAt, hnj, InstanceNormals_Set_CornerMesh, hT]
      · left
        exact ⟨.InvalidReference, by
          simp [AppendPolygonCornerNormal, ArrayAt, hnj, InstanceNormals_Set_CornerMesh, hT]⟩

/-- The value of the loop body of `AppendPolygon` in every case. -/
theorem AppendPolygonCorner_cases (uvs : Option (List (FVector2D R)))
    (normals : Option (List (FVector R))) (m : FMeshDescription R) (v j : Nat) :
    (IsValid m.VertexArray v = false ∧
      AppendPolygonCorner uvs normals m v j = (.error .InvalidReference, m)) ∨
    (IsValid m.VertexArray v = true ∧
      ((∃ e uv n, AppendPolygonCorner uvs normals m v j = (.error e, CornerMesh m v uv n)) ∨
       (AppendPolygonCorner uvs normals m v j =
          (.ok (NextFree m.VertexInstanceArray),
            CornerMesh m v (uvs.bind (·[j]?)) (normals.bind (·[j]?))) ∧
        (∀ u, uvs = some u → u[j]?.isSome ∧ m.TextureCoordinate.isSome ∧
          0 < m.NumUVLayers) ∧
        (∀ n, normals = some n → n[j]?.isSome ∧ m.Normal.isSome)))) := by
  cases hv : IsValid m.VertexArray v with
  | false =>
    left
    simp [AppendPolygonCorner, CreateVertexInstance_dead m v hv]
  | true =>
    right
    refine ⟨rfl, ?_⟩
    simp only [AppendPolygonCorner, CreateVertexInstance_live m v hv]
    rcases AppendPolygonCornerUV_cases uvs m v j with ⟨e, he⟩ | ⟨hok, hfacts⟩
    · left
      exact ⟨e, none, none, by rw [he]⟩
    · rw [hok]
      dsimp only
      rcases AppendPolygonCornerNormal_cases normals m v j (uvs.bind (·[j]?)) with
        ⟨e, he⟩ | ⟨hok2, hfacts2⟩
      · left
        exact ⟨e, _, none, by rw [he]⟩
      · right
        exact ⟨by rw [hok2], hfacts, hfacts2⟩

/-! ## The frame of the instance loop -/

theorem OnlyInstancesAdded.refl (m : FMeshDescription R) : OnlyInstancesAdded m m :=
  ⟨rfl, rfl, rfl, rfl, rfl, rfl, rfl, rfl, rfl, rfl, rfl, fun _ _ => ⟨rfl, fun _ => rfl,
    fun _ => rfl, fun _ => rfl⟩⟩

theorem OnlyInstancesAdded.trans {m m1 m2 : FMeshDescription R}
    (h1 : OnlyInstancesAdded m m1) (h2 : OnlyInstancesAdded m1 m2) : OnlyInstancesAdded m m2 := by
  refine ⟨h2.VertexArray.trans h1.VertexArray, h2.EdgeArray.trans h1.EdgeArray,
    h2.PolygonArray.trans h1.PolygonArray, h2.PolygonGroupArray.trans h1.PolygonGroupArray,
    h2.NumUVLayers.trans h1.NumUVLayers, h2.Position.trans h1.Position,
    h2.IsHard.trans h1.IsHard, h2.PolyTriGroups.trans h1.PolyTriGroups,
    h2.UVDefault.trans h1.UVDefault, h2.NormalDefault.trans h1.NormalDefault,
    h2.ColorDefault.trans h1.ColorDefault, ?_⟩
  intro i hi
  obtain ⟨a1, b1, c1, d1⟩ := h1.Instances i hi
  have hi1 : IsValid m1.VertexInstanceArray i = true := by
    unfold IsValid at hi ⊢
    rw [a1]; exact hi
  obtain ⟨a2, b2, c2, d2⟩ := h2.Instances i hi1
  exact ⟨a2.trans a1, fun l => (b2 l).trans (b1 l), fun l => (c2 l).trans (c1 l),
    fun l => (d2 l).trans (d1 l)⟩

theorem ElementAt_CornerMesh (m : FMeshDescription R) (v : Nat) (uv : Option (FVector2D R))
    (n : Option (FVector R)) (i : Nat) :
    ElementAt (CornerMesh m v uv n).VertexInstanceArray i =
      if i = NextFree m.VertexInstanceArray then some v
      else ElementAt m.VertexInstanceArray i := by
  simp [CornerMesh, ElementAt_Insert]

theorem EnterCorner_Data_ne {T : Type} (t : TAttributesRef T) (id : Nat) (value : Option T)
    (i : Nat) (h : i ≠ id) (layer : Int) : (EnterCorner t id value).Data i layer = t.Data i layer := by
  cases value <;> simp [EnterCorner, TAttributesRef.Reset, TAttributesRef.Write,
    Function.update_noteq h]

theorem EnterCorner_Default {T : Type} (t : TAttributesRef T) (id : Nat) (value : Option T) :
    (EnterCorner t id value).Default = t.Default := by
  cases value <;> rfl

theorem EnterCorner_Data_some {T : Type} (t : TAttributesRef T) (id : Nat) (x : T) :
    (EnterCorner t id (some x)).Data id 0 = x := by
  simp [EnterCorner, TAttributesRef.Reset, TAttributesRef.Write]

theorem EnterCorner_Data_none {T : Type} (t : TAttributesRef T) (id : Nat) (layer : Int) :
    (EnterCorner t id none).Data id layer = t.Default := by
  simp [EnterCorner, TAttributesRef.Reset]

theorem OnlyInstancesAdded_CornerMesh (m : FMeshDescription R) (v : Nat)
    (uv : Option (FVector2D R)) (n : Option (FVector R)) :
    OnlyInstancesAdded m (CornerMesh m v uv n) := by
  refine ⟨rfl, rfl, rfl, rfl, rfl, rfl, rfl, rfl, ?_, ?_, ?_, ?_⟩
  · cases h : m.TextureCoordinate <;> simp [CornerMesh, h, EnterCorner_Default]
  · cases h : m.Normal <;> simp [CornerMesh, h, EnterCorner_Default]
  · cases h : m.Color <;> simp [CornerMesh, h, TAttributesRef.Reset]
  · intro i hi
    have hne : i ≠ NextFree m.VertexInstanceArray := by
      intro h
      rw [h, IsValid_NextFree] at hi
      exact Bool.noConfusion hi
    refine ⟨by simp [ElementAt_CornerMesh, hne], ?_, ?_, ?_⟩
    · intro layer
      cases h : m.TextureCoordinate <;> simp [UVData, CornerMesh, h, EnterCorner_Data_ne _ _ _ _ hne]
    · intro layer
      cases h : m.Normal <;> simp [NormalData, CornerMesh, h, EnterCorner_Data_ne _ _ _ _ hne]
    · intro layer
      cases h : m.Color <;> simp [ColorData, CornerMesh, h, TAttributesRef.Reset,
        Function.update_noteq hne]

theorem OnlyInstancesAdded_AppendPolygonCorner (uvs : Option (List (FVector2D R)))
    (normals : Option (List (FVector R))) (m : FMeshDescription R) (v j : Nat) :
    OnlyInstancesAdded m (AppendPolygonCorner uvs normals m v j).2 := by
  rcases AppendPolygonCorner_cases uvs normals m v j with ⟨-, h⟩ | ⟨-, ⟨e, uv, n, h⟩ | ⟨h, -, -⟩⟩
  · rw [h]; exact OnlyInstancesAdded.refl m
  · rw [h]; exact OnlyInstancesAdded_CornerMesh m v uv n
  · rw [h]; exact OnlyInstancesAdded_CornerMesh m v _ _

theorem OnlyInstancesAdded_AppendPolygonLoop (uvs : Option (List (FVector2D R)))
    (normals : Option (List (FVector R))) (vs : List Nat) :
    ∀ (m : FMeshDescription R) (j : Nat) (acc : List Nat),
      OnlyInstancesAdded m (AppendPolygonLoop uvs normals m vs j acc).2 := by
  induction vs with
  | nil => intro m j acc; exact OnlyInstancesAdded.refl m
  | cons v vs ih =>
    intro m j acc
    have hc := OnlyInstancesAdded_AppendPolygonCorner uvs normals m v j
    unfold AppendPolygonLoop
    cases hr : AppendPolygonCorner uvs normals m v j with
    | mk r m1 =>
      rw [hr] at hc
      cases r with
      | error e => exact hc
      | ok id => exact hc.trans (ih m1 (j + 1) (acc ++ [id]))

/-! ## The instance loop of `AppendPolygon` -/

theorem UVData_CornerMesh_self (m : FMeshDescription R) (v : Nat) (x : FVector2D R)
    (n : Option (FVector R)) (h : m.TextureCoordinate.isSome = true) :
    UVData (CornerMesh m v (some x) n) (NextFree m.VertexInstanceArray) 0 = some x := by
  cases hT : m.TextureCoordinate with
  | none => rw [hT] at h; exact Bool.noConfusion h
  | some t => simp [UVData, CornerMesh, hT, EnterCorner_Data_some]

theorem UVData_CornerMesh_none (m : FMeshDescription R) (v : Nat) (n : Option (FVector R))
    (layer : Int) :
    UVData (CornerMesh m v none n) (NextFree m.VertexInstanceArray) layer =
      m.TextureCoordinate.map (·.Default) := by
  cases hT : m.TextureCoordinate <;> simp [UVData, CornerMesh, hT, EnterCorner_Data_none]

theorem NormalData_CornerMesh_self (m : FMeshDescription R) (v : Nat) (x : FVector R)
    (uv : Option (FVector2D R)) (h : m.Normal.isSome = true) :
    NormalData (CornerMesh m v uv (some x)) (NextFree m.VertexInstanceArray) 0 = some x := by
  cases hT : m.Normal with
  | none => rw [hT] at h; exact Bool.noConfusion h
  | some t => simp [NormalData, CornerMesh, hT, EnterCorner_Data_some]

theorem NormalData_CornerMesh_none (m : FMeshDescription R) (v : Nat)
    (uv : Option (FVector2D R)) (layer : Int) :
    NormalData (CornerMesh m v uv none) (NextFree m.VertexInstanceArray) layer =
      m.Normal.map (·.Default) := by
  cases hT : m.Normal <;> simp [NormalData, CornerMesh, hT, EnterCorner_Data_none]

theorem IsValid_CornerMesh_self (m : FMeshDescription R) (v : Nat) (uv : Option (FVector2D R))
    (n : Option (FVector R)) :
    IsValid (CornerMesh m v uv n).VertexInstanceArray (NextFree m.VertexInstanceArray) = true := by
  simp [IsValid, ElementAt_CornerMesh]

theorem IsValid_of_CornerMesh_dead (m : FMeshDescription R) (v : Nat)
    (uv : Option (FVector2D R)) (n : Option (FVector R)) (i : Nat)
    (h : IsValid (CornerMesh m v uv n).VertexInstanceArray i = false) :
    i ≠ NextFree m.VertexInstanceArray ∧ IsValid m.VertexInstanceArray i = false := by
  have h2 : (decide (i = NextFree m.VertexInstanceArray) || IsValid m.VertexInstanceArray i)
      = false := by
    rw [← IsValid_Insert m.VertexInstanceArray v i]; exact h
  simpa using h2

/-- Whenever the loop completes, it has appended one corner per vertex. -/
theorem AppendPolygonLoop_ok (uvs : Option (List (FVector2D R)))
    (normals : Option (List (FVector R))) (vs : List Nat) :
    ∀ (m : FMeshDescription R) (j : Nat) (acc ids1 : List Nat) (m1 : FMeshDescription R),
      AppendPolygonLoop uvs normals m vs j acc = (.ok ids1, m1) →
      ∃ ids, ids1 = acc ++ ids ∧ CornersAppended uvs normals m vs j ids m1 := by
  induction vs with
  | nil =>
    intro m j acc ids1 m1 h
    simp only [AppendPolygonLoop, Prod.mk.injEq, Except.ok.injEq] at h
    refine ⟨[], by simp [h.1], ?_⟩
    rw [← h.2]
    exact ⟨rfl, List.nodup_nil, by simp, rfl, fun _ _ => rfl, by simp, by simp, by simp, by simp⟩
  | cons v vs ih =>
    intro m j acc ids1 m1 h
    unfold AppendPolygonLoop at h
    rcases AppendPolygonCorner_cases uvs normals m v j with
      ⟨-, hc⟩ | ⟨-, ⟨e, uv, n, hc⟩ | ⟨hc, huvf, hnf⟩⟩
    · rw [hc] at h; simp at h
    · rw [hc] at h; simp at h
    · rw [hc] at h
      dsimp only at h
      obtain ⟨ids, hids, hpost⟩ := ih _ _ _ _ _ h
      have hframe := OnlyInstancesAdded_AppendPolygonLoop uvs normals vs
        (CornerMesh m v (uvs.bind (·[j]?)) (normals.bind (·[j]?))) (j + 1)
        (acc ++ [NextFree m.VertexInstanceArray])
      rw [h] at hframe
      have hself := hframe.Instances _ (IsValid_CornerMesh_self m v _ _)
      have hnotin : NextFree m.VertexInstanceArray ∉ ids := by
        intro hin
        have := hpost.fresh _ hin
        rw [IsValid_CornerMesh_self] at this
        exact Bool.noConfusion this
      refine ⟨NextFree m.VertexInstanceArray :: ids, by simp [hids], ?_⟩
      refine ⟨by simp [hpost.length], List.nodup_cons.mpr ⟨hnotin, hpost.nodup⟩, ?_, ?_, ?_,
        ?_, ?_, ?_, ?_⟩
      · intro i hi
        rcases List.mem_cons.mp hi with hi | hi
        · rw [hi]; exact IsValid_NextFree _
        · exact (IsValid_of_CornerMesh_dead m v _ _ i (hpost.fresh i hi)).2
      · simp only [List.map_cons, hpost.vertices]
        rw [hself.1, ElementAt_CornerMesh]
        simp
      · intro i hi
        have hi1 : i ≠ NextFree m.VertexInstanceArray := fun h => hi (h ▸ List.mem_cons_self _ _)
        have hi2 : i ∉ ids := fun h => hi (List.mem_cons_of_mem _ h)
        rw [hpost.others i hi2, ElementAt_CornerMesh]
        simp [hi1]
      · intro u hu k i hk
        cases k with
        | zero =>
          simp only [List.getElem?_cons_zero, Option.some.injEq] at hk
          obtain ⟨hx, hT, -⟩ := huvf u hu
          obtain ⟨x, hx⟩ := Option.isSome_iff_exists.mp hx
          refine ⟨x, by simpa using hx, ?_⟩
          rw [← hk, hself.2.1 0]
          have : uvs.bind (·[j]?) = some x := by simp [hu, hx]
          rw [this]
          exact UVData_CornerMesh_self m v x _ hT
        | succ k =>
          simp only [List.getElem?_cons_succ] at hk
          obtain ⟨x, hx, hd⟩ := hpost.uvWritten u hu k i hk
          exact ⟨x, by rw [← hx]; congr 1; omega, hd⟩
      · intro hu i hi layer
        rcases List.mem_cons.mp hi with hi | hi
        · rw [hi, hself.2.1 layer]
          have : uvs.bind (·[j]?) = none := by simp [hu]
          rw [this]
          exact UVData_CornerMesh_none m v _ layer
        · rw [hpost.uvUntouched hu i hi layer]
          exact (OnlyInstancesAdded_CornerMesh m v _ _).UVDefault
      · intro u hu k i hk
        cases k with
        | zero =>
          simp only [List.getElem?_cons_zero, Option.some.injEq] at hk
          obtain ⟨hx, hT⟩ := hnf u hu
          obtain ⟨x, hx⟩ := Option.isSome_iff_exists.mp hx
          refine ⟨x, by simpa using hx, ?_⟩
          rw [← hk, hself.2.2.1 0]
          have : normals.bind (·[j]?) = some x := by simp [hu, hx]
          rw [this]
          exact NormalData_CornerMesh_self m v x _ hT
        | succ k =>
          simp only [List.getElem?_cons_succ] at hk
          obtain ⟨x, hx, hd⟩ := hpost.normalWritten u hu k i hk
          exact ⟨x, by rw [← hx]; congr 1; omega, hd⟩
      · intro hu i hi layer
        rcases List.mem_cons.mp hi with hi | hi
        · rw [hi, hself.2.2.1 layer]
          have : normals.bind (·[j]?) = none := by simp [hu]
          rw [this]
          exact NormalData_CornerMesh_none m v _ layer
        · rw [hpost.normalUntouched hu i hi layer]
          exact (OnlyInstancesAdded_CornerMesh m v _ _).NormalDefault

theorem AppendPolygonCorner_total (uvs : Option (List (FVector2D R)))
    (normals : Option (List (FVector R))) (m : FMeshDescription R) (v j : Nat)
    (hv : IsValid m.VertexArray v = true)
    (huv : ∀ u, uvs = some u →
      m.TextureCoordinate.isSome = true ∧ 0 < m.NumUVLayers ∧ j < u.length)
    (hn : ∀ n, normals = some n → m.Normal.isSome = true ∧ j < n.length) :
    AppendPolygonCorner uvs normals m v j =
      (.ok (NextFree m.VertexInstanceArray),
        CornerMesh m v (uvs.bind (·[j]?)) (normals.bind (·[j]?))) := by
  have h1 : AppendPolygonCornerUV uvs (CornerMesh m v none none)
      (NextFree m.VertexInstanceArray) j = (.ok (), CornerMesh m v (uvs.bind (·[j]?)) none) := by
    cases uvs with
    | none => simp [AppendPolygonCornerUV]
    | some u =>
      obtain ⟨hT, hN, hj⟩ := huv u rfl
      simp [AppendPolygonCornerUV, ArrayAt, List.getElem?_eq_getElem hj,
        InstanceUVs_Set_CornerMesh, hT, hN]
  have h2 : AppendPolygonCornerNormal normals (CornerMesh m v (uvs.bind (·[j]?)) none)
      (NextFree m.VertexInstanceArray) j =
        (.ok (), CornerMesh m v (uvs.bind (·[j]?)) (normals.bind (·[j]?))) := by
    cases normals with
    | none => simp [AppendPolygonCornerNormal]
    | some n =>
      obtain ⟨hT, hj⟩ := hn n rfl
      simp [AppendPolygonCornerNormal, ArrayAt, List.getElem?_eq_getElem hj,
        InstanceNormals_Set_CornerMesh, hT]
  simp only [AppendPolygonCorner, CreateVertexInstance_live m v hv, h1, h2]

/-- With usable arguments the loop completes. -/
theorem AppendPolygonLoop_total (uvs : Option (List (FVector2D R)))
    (normals : Option (List (FVector R))) (vs : List Nat) :
    ∀ (m : FMeshDescription R) (j : Nat) (acc : List Nat),
      CornersUsable uvs normals m vs j →
      ∃ ids1 m1, AppendPolygonLoop uvs normals m vs j acc = (.ok ids1, m1) := by
  induction vs with
  | nil => intro m j acc _; exact ⟨acc, m, rfl⟩
  | cons v vs ih =>
    intro m j acc h
    obtain ⟨hlive, huv, hn⟩ := h
    have hc := AppendPolygonCorner_total uvs normals m v j (hlive v (List.mem_cons_self _ _))
      (fun u hu => by
        obtain ⟨a, b, c⟩ := huv u hu
        simp only [List.length_cons] at c
        exact ⟨a, b, by omega⟩)
      (fun n hnn => by
        obtain ⟨a, c⟩ := hn n hnn
        simp only [List.length_cons] at c
        exact ⟨a, by omega⟩)
    unfold AppendPolygonLoop
    rw [hc]
    apply ih
    refine ⟨fun w hw => hlive w (List.mem_cons_of_mem _ hw), ?_, ?_⟩
    · intro u hu
      obtain ⟨a, b, c⟩ := huv u hu
      simp only [List.length_cons] at c
      refine ⟨?_, b, by omega⟩
      cases hT : m.TextureCoordinate with
      | none => rw [hT] at a; exact Bool.noConfusion a
      | some t => simp [CornerMesh, hT]
    · intro n hnn
      obtain ⟨a, c⟩ := hn n hnn
      simp only [List.length_cons] at c
      refine ⟨?_, by omega⟩
      cases hT : m.Normal with
      | none => rw [hT] at a; exact Bool.noConfusion a
      | some t => simp [CornerMesh, hT]

/-! ## `CreatePolygon` -/

theorem all_valid_of_map_some {α : Type} (arr : TMeshElementArray α) (l : List Nat) (vs : List α)
    (h : l.map (ElementAt arr) = vs.map some) : l.all (IsValid arr) = true := by
  induction l generalizing vs with
  | nil => rfl
  | cons a l ih =>
    cases vs with
    | nil => simp at h
    | cons b vs =>
      simp only [List.map_cons, List.cons.injEq] at h
      simp only [List.all_cons, Bool.and_eq_true]
      exact ⟨by simp [IsValid, h.1], ih vs h.2⟩

theorem OnlyEdgesChanged_AttachEdge (m : FMeshDescription R) (pid : Nat) (ab : Nat × Nat) :
    OnlyEdgesChanged m (m.AttachEdge pid ab) := by
  unfold FMeshDescription.AttachEdge
  cases hf : FindEdge m.EdgeArray ab.1 ab.2 0 with
  | none => exact ⟨rfl, rfl, rfl, rfl, rfl, rfl, rfl, rfl, rfl, rfl⟩
  | some e =>
    cases he : ElementAt m.EdgeArray e with
    | none => simp only [he]; exact ⟨rfl, rfl, rfl, rfl, rfl, rfl, rfl, rfl, rfl, rfl⟩
    | some edge => simp only [he]; exact ⟨rfl, rfl, rfl, rfl, rfl, rfl, rfl, rfl, rfl, rfl⟩

theorem OnlyEdgesChanged_foldl (pid : Nat) (pairs : List (Nat × Nat)) :
    ∀ m : FMeshDescription R,
      OnlyEdgesChanged m (pairs.foldl (fun acc ab => acc.AttachEdge pid ab) m) := by
  induction pairs with
  | nil => intro m; exact ⟨rfl, rfl, rfl, rfl, rfl, rfl, rfl, rfl, rfl, rfl⟩
  | cons ab pairs ih =>
    intro m
    have h1 := OnlyEdgesChanged_AttachEdge m pid ab
    have h2 := ih (m.AttachEdge pid ab)
    simp only [List.foldl_cons]
    exact ⟨h2.1.trans h1.1, h2.2.trans h1.2, h2.3.trans h1.3, h2.4.trans h1.4, h2.5.trans h1.5,
      h2.6.trans h1.6, h2.7.trans h1.7, h2.8.trans h1.8, h2.9.trans h1.9, h2.10.trans h1.10⟩

theorem CreatePolygon_ok (m : FMeshDescription R) (g : Nat) (ids : List Nat)
    (hg : IsValid m.PolygonGroupArray g = true) (hlen : 3 ≤ ids.length)
    (hrep : HasRepeatedVertex (ids.filterMap m.GetVertexInstanceVertex) = false)
    (hlive : ids.all (IsValid m.VertexInstanceArray) = true) :
    ∃ m2, m.CreatePolygon g ids = .ok (NextFree m.PolygonArray, m2) ∧
      m2.PolygonArray = Insert m.PolygonArray ⟨g, ids⟩ ∧
      m2.VertexArray = m.VertexArray ∧
      m2.VertexInstanceArray = m.VertexInstanceArray ∧
      m2.PolygonGroupArray = m.PolygonGroupArray ∧
      m2.NumUVLayers = m.NumUVLayers ∧
      m2.Position = m.Position ∧
      m2.TextureCoordinate = m.TextureCoordinate ∧
      m2.Normal = m.Normal ∧
      m2.Color = m.Color := by
  have hl : ¬ ids.length < 3 := by omega
  have h := OnlyEdgesChanged_foldl (NextFree m.PolygonArray)
    (BoundaryPairs (ids.filterMap m.GetVertexInstanceVertex))
    ({ m with
      PolygonArray := Insert m.PolygonArray ⟨g, ids⟩
      PolyTriGroups := m.PolyTriGroups.map (·.Reset (NextFree m.PolygonArray)) } :
      FMeshDescription R)
  refine ⟨_, ?_, h.PolygonArray, h.VertexArray, h.VertexInstanceArray, h.PolygonGroupArray,
    h.NumUVLayers, h.Position, h.TextureCoordinate, h.Normal, h.Color⟩
  unfold FMeshDescription.CreatePolygon
  simp only [hg, hl, hrep, hlive]
  simp

/-! ## `AppendPolygon` as loop plus `CreatePolygon` -/

theorem CreatePolygon_ok_inv (m : FMeshDescription R) (g : Nat) (ids : List Nat) (pid : Nat)
    (m2 : FMeshDescription R) (h : m.CreatePolygon g ids = .ok (pid, m2)) :
    IsValid m.PolygonGroupArray g = true ∧ 3 ≤ ids.length ∧
    HasRepeatedVertex (ids.filterMap m.GetVertexInstanceVertex) = false ∧
    ids.all (IsValid m.VertexInstanceArray) = true := by
  unfold FMeshDescription.CreatePolygon at h
  split at h
  · exact Except.noConfusion h
  · split at h
    · exact Except.noConfusion h
    · split at h
      · exact Except.noConfusion h
      · split at h
        · exact Except.noConfusion h
        · rename_i h1 h2 h3 h4
          refine ⟨by simpa using h1, by omega, by simpa using h3, by simpa using h4⟩

/-- The mesh `AppendPolygon` leaves is the mesh its loop leaves, changed by
`CreatePolygon` when that succeeds. -/
theorem AppendPolygon_eq (m : FMeshDescription R) (vs : List Nat) (g : Nat)
    (uvs : Option (List (FVector2D R))) (normals : Option (List (FVector R))) :
    (∃ e, AppendPolygon m vs g uvs normals =
        (.error e, (AppendPolygonLoop uvs normals m vs 0 []).2) ∧
      ∀ ids, (AppendPolygonLoop uvs normals m vs 0 []).1 = .ok ids →
        (AppendPolygonLoop uvs normals m vs 0 []).2.CreatePolygon g ids = .error e) ∨
    (∃ ids pid m2, (AppendPolygonLoop uvs normals m vs 0 []).1 = .ok ids ∧
      (AppendPolygonLoop uvs normals m vs 0 []).2.CreatePolygon g ids = .ok (pid, m2) ∧
      AppendPolygon m vs g uvs normals = (.ok pid, m2)) := by
  unfold AppendPolygon
  cases hl : AppendPolygonLoop uvs normals m vs 0 [] with
  | mk r m1 =>
    cases r with
    | error e => exact Or.inl ⟨e, rfl, fun ids h => by simp at h⟩
    | ok ids =>
      cases hc : m1.CreatePolygon g ids with
      | error e =>
        left
        refine ⟨e, by simp [hc], ?_⟩
        intro ids2 h
        simp only [Except.ok.injEq] at h
        rw [← h]; exact hc
      | ok r2 =>
        obtain ⟨pid, m2⟩ := r2
        exact Or.inr ⟨ids, pid, m2, rfl, hc, by simp [hc]⟩

theorem AppendPolygon_instance_tables (m : FMeshDescription R) (vs : List Nat) (g : Nat)
    (uvs : Option (List (FVector2D R))) (normals : Option (List (FVector R))) :
    (AppendPolygon m vs g uvs normals).2.VertexInstanceArray =
        (AppendPolygonLoop uvs normals m vs 0 []).2.VertexInstanceArray ∧
    (AppendPolygon m vs g uvs normals).2.VertexArray =
        (AppendPolygonLoop uvs normals m vs 0 []).2.VertexArray ∧
    (AppendPolygon m vs g uvs normals).2.TextureCoordinate =
        (AppendPolygonLoop uvs normals m vs 0 []).2.TextureCoordinate ∧
    (AppendPolygon m vs g uvs normals).2.Normal =
        (AppendPolygonLoop uvs normals m vs 0 []).2.Normal := by
  rcases AppendPolygon_eq m vs g uvs normals with ⟨e, h, -⟩ | ⟨ids, pid, m2, hl, hc, h⟩
  · rw [h]; exact ⟨rfl, rfl, rfl, rfl⟩
  · obtain ⟨hg, hlen, hrep, hlive⟩ := CreatePolygon_ok_inv _ _ _ _ _ hc
    obtain ⟨m3, hc3, -, hV, hVI, -, -, -, hT, hN, -⟩ := CreatePolygon_ok _ g ids hg hlen hrep hlive
    rw [hc] at hc3
    simp only [Except.ok.injEq, Prod.mk.injEq] at hc3
    rw [h, hc3.2]
    exact ⟨hVI, hV, hT, hN⟩

/-- With usable arguments the loop of `AppendPolygon` completes, and the corners it
appended are described by `CornersAppended`. -/
theorem AppendPolygonLoop_corners (m : FMeshDescription R) (vs : List Nat)
    (uvs : Option (List (FVector2D R))) (normals : Option (List (FVector R)))
    (hargs : CornersUsable uvs normals m vs 0) :
    ∃ ids, (AppendPolygonLoop uvs normals m vs 0 []).1 = .ok ids ∧
      CornersAppended uvs normals m vs 0 ids (AppendPolygonLoop uvs normals m vs 0 []).2 := by
  obtain ⟨ids1, m1, h⟩ := AppendPolygonLoop_total uvs normals vs m 0 [] hargs
  obtain ⟨ids, hids, hpost⟩ := AppendPolygonLoop_ok uvs normals vs m 0 [] ids1 m1 h
  rw [h]
  exact ⟨ids, by simp [hids], hpost⟩

/-- C3: when the listed vertices are live and a supplied array belongs to a registered
table and has an element per corner, the loop of `AppendPolygon` collects one new
vertex instance for every vertex (`ids`, in input order), and in the mesh the call
leaves: layer 0 of the UV of the k-th new instance is element k of a supplied UV array,
the normal of the k-th new instance is element k of a supplied normal array, and an
attribute whose array is null still holds the table default on every new instance (it
was not written).  The array overload of `AppendTriangle` is `AppendPolygon` on the three
vertices and the three-element arrays, the three-identifier overload is
`AppendPolygon` on the three vertices with both arrays null. -/
theorem AppendPolygon_writes_corner_attributes (m : FMeshDescription R) (Vertices : List Nat)
    (PolygonGroup : Nat) (VertexUVs : Option (List (FVector2D R)))
    (VertexNormals : Option (List (FVector R)))
    (hargs : CornersUsable VertexUVs VertexNormals m Vertices 0) :
    (∃ ids : List Nat,
      (AppendPolygonLoop VertexUVs VertexNormals m Vertices 0 []).1 = .ok ids ∧
      ids.length = Vertices.length ∧ ids.Nodup ∧
      (∀ i ∈ ids, IsValid m.VertexInstanceArray i = false ∧
        IsValid
          (AppendPolygon m Vertices PolygonGroup VertexUVs VertexNormals).2.VertexInstanceArray i
          = true) ∧
      (∀ u, VertexUVs = some u → ∀ k, k < Vertices.length → ∃ i x, ids[k]? = some i ∧
        u[k]? = some x ∧
        UVData (AppendPolygon m Vertices PolygonGroup VertexUVs VertexNormals).2 i 0 = some x) ∧
      (∀ n, VertexNormals = some n → ∀ k, k < Vertices.length → ∃ i x, ids[k]? = some i ∧
        n[k]? = some x ∧
        NormalData (AppendPolygon m Vertices PolygonGroup VertexUVs VertexNormals).2 i 0
          = some x) ∧
      (VertexUVs = none → ∀ i ∈ ids, ∀ layer,
        UVData (AppendPolygon m Vertices PolygonGroup VertexUVs VertexNormals).2 i layer =
          m.TextureCoordinate.map (·.Default)) ∧
      (VertexNormals = none → ∀ i ∈ ids, ∀ layer,
        NormalData (AppendPolygon m Vertices PolygonGroup VertexUVs VertexNormals).2 i layer =
          m.Normal.map (·.Default))) ∧
    (∀ (Triangle : Nat × Nat × Nat) (uv3 : Option (FVector2D R × FVector2D R × FVector2D R))
        (n3 : Option (FVector R × FVector R × FVector R)),
      AppendTriangleArrays m Triangle PolygonGroup uv3 n3 =
        AppendPolygon m [Triangle.1, Triangle.2.1, Triangle.2.2] PolygonGroup
          (uv3.map (fun uv => [uv.1, uv.2.1, uv.2.2]))
          (n3.map (fun n => [n.1, n.2.1, n.2.2]))) ∧
    (∀ v0 v1 v2, AppendTriangle m v0 v1 v2 PolygonGroup =
      AppendPolygon m [v0, v1, v2] PolygonGroup none none) := by
  refine ⟨?_, fun _ _ _ => rfl, fun _ _ _ => rfl⟩
  obtain ⟨ids, hids, hpost⟩ := AppendPolygonLoop_corners m Vertices VertexUVs VertexNormals hargs
  obtain ⟨hVI, -, hT, hN⟩ :=
    AppendPolygon_instance_tables m Vertices PolygonGroup VertexUVs VertexNormals
  have hUV : ∀ i layer,
      UVData (AppendPolygon m Vertices PolygonGroup VertexUVs VertexNormals).2 i layer =
        UVData (AppendPolygonLoop VertexUVs VertexNormals m Vertices 0 []).2 i layer := by
    intro i layer; simp [UVData, hT]
  have hNo : ∀ i layer,
      NormalData (AppendPolygon m Vertices PolygonGroup VertexUVs VertexNormals).2 i layer =
        NormalData (AppendPolygonLoop VertexUVs VertexNormals m Vertices 0 []).2 i layer := by
    intro i layer; simp [NormalData, hN]
  have hall := all_valid_of_map_some _ _ _ hpost.vertices
  refine ⟨ids, hids, hpost.length, hpost.nodup,
    fun i hi => ⟨hpost.fresh i hi, by rw [hVI]; exact List.all_eq_true.mp hall i hi⟩,
    ?_, ?_, ?_, ?_⟩
  · intro u hu k hk
    have hk2 : k < ids.length := by rw [hpost.length]; exact hk
    obtain ⟨x, hx, hd⟩ := hpost.uvWritten u hu k ids[k] (List.getElem?_eq_getElem hk2)
    exact ⟨ids[k], x, List.getElem?_eq_getElem hk2, by simpa using hx, by rw [hUV]; exact hd⟩
  · intro n hn k hk
    have hk2 : k < ids.length := by rw [hpost.length]; exact hk
    obtain ⟨x, hx, hd⟩ := hpost.normalWritten n hn k ids[k] (List.getElem?_eq_getElem hk2)
    exact ⟨ids[k], x, List.getElem?_eq_getElem hk2, by simpa using hx, by rw [hNo]; exact hd⟩
  · intro hu i hi layer
    rw [hUV]; exact hpost.uvUntouched hu i hi layer
  · intro hn i hi layer
    rw [hNo]; exact hpost.normalUntouched hn i hi layer

/-- The arguments of the witness of C3 are usable. -/
theorem threeVertices_usable :
    CornersUsable (some [⟨1, 2⟩, ⟨3, 4⟩, ⟨5, 6⟩]) none threeVertices [0, 1, 2] 0 :=
  ⟨by decide, fun u hu => ⟨rfl, by decide, by cases hu; decide⟩, fun n hn => by cases hn⟩

/-- Witness of C3: a triangle over the three example vertices with a UV array and no
normal array; corner 1 receives UV (3,4). -/
theorem AppendPolygon_writes_corner_attributes_witness :
    CornersUsable (some [⟨1, 2⟩, ⟨3, 4⟩, ⟨5, 6⟩]) none threeVertices [0, 1, 2] 0 ∧
    UVData (AppendPolygon threeVertices [0, 1, 2] 0 (some [⟨1, 2⟩, ⟨3, 4⟩, ⟨5, 6⟩]) none).2 1 0
      = some ⟨3, 4⟩ ∧
    ∃ ids : List Nat,
      (AppendPolygonLoop (some [⟨1, 2⟩, ⟨3, 4⟩, ⟨5, 6⟩]) none threeVertices [0, 1, 2] 0 []).1
        = .ok ids ∧ ids.length = 3 :=
  ⟨threeVertices_usable, rfl,
    let ⟨ids, h1, h2, _⟩ := (AppendPolygon_writes_corner_attributes threeVertices [0, 1, 2] 0
      (some [⟨1, 2⟩, ⟨3, 4⟩, ⟨5, 6⟩]) none threeVertices_usable).1
    ⟨ids, h1, h2⟩⟩

/-- On a registered UV table and a live instance, `SetInstanceUV` writes entry
`(InstanceID, UVLayerIndex)` whenever `UVLayerIndex < NumUVLayers`, changing nothing
else, and reports `IndexOutOfRange` without writing otherwise. -/
theorem SetInstanceUV_eq (m : FMeshDescription R) (t : TAttributesRef (FVector2D R))
    (InstanceID : Nat) (InstanceUV : FVector2D R) (UVLayerIndex : Int)
    (hT : m.TextureCoordinate = some t)
    (hlive : IsValid m.VertexInstanceArray InstanceID = true) :
    SetInstanceUV m InstanceID InstanceUV UVLayerIndex =
      if UVLayerIndex < (m.NumUVLayers : Int) then
        (.ok (), { m with TextureCoordinate := some (t.Write InstanceID UVLayerIndex InstanceUV) })
      else (.error .IndexOutOfRange, m) := by
  by_cases h : UVLayerIndex < (m.NumUVLayers : Int)
  · simp [SetInstanceUV, InstanceUVs_IsValid, InstanceUVs_GetNumIndices, InstanceUVs_Set, hT,
      hlive, TAttributesRef.Set, h]
  · simp [SetInstanceUV, InstanceUVs_IsValid, InstanceUVs_GetNumIndices, hT, h]

end MeshBuilder
